import Mathlib

/-! # ALBERT example parser

A shallow embedding of `src/bert/albert_example_parser.cc` (`ALBertExampleParser::_mask_seq`
and `ALBertExampleParser::ParseOne`) and theorems about it.

Conventions of the embedding.

* C++ `int` is `Int` (no value of the program comes near the 32-bit range).
* `std::vector` is `List`; reading or writing outside `[0, size)` is undefined behaviour in C++
  and is the fault `Fault.outOfBounds` here, so a run that returns `Except.ok` made no such
  access.
* Randomness is an input. Everything drawn from the member generator `gen_` is a field of
  `Gen`: the loop draws are indexed by the loop iteration (span loop) or by the position
  (corruption loop) at which they are made. `std::random_shuffle` does not use `gen_` (it uses
  the global `rand()`); its effect is the separate argument `shuffle`.
* `float` draws are rationals, compared exactly with the thresholds `0.8` and `0.5`.
* The values a distribution can return are predicates on `Gen` (`SpanDrawsOk`, `IdDrawsOk`,
  `LibraryDraws`), taken as hypotheses where a statement needs them.
* The subword encoder is external: its results `EncodeAsIds(x)` and `GetPieceSize()` are the
  arguments `ids` and `totalVocabSize`.
-/

namespace radish

/-! ## Constants, faults, vectors -/

/-- Source: `static int kMaxLen = 199;` -/
def kMaxLen : Int := 199

/-- Source: `static int kMaxLabel = 28;` -/
def kMaxLabel : Int := 28

/-- Ways in which a run leaves the defined behaviour of the program. -/
inductive Fault where
  /-- an index outside `[0, size)` of a vector (undefined behaviour in C++) -/
  | outOfBounds
  /-- a vector constructed with a negative size -/
  | lengthError
  /-- the assertion `CHECK_LE` failed (the process aborts) -/
  | checkFailed
  deriving DecidableEq, Repr

deriving instance DecidableEq for Except

/-- Read `v[i]` of a vector with an `int` index. -/
def readAt {α : Type} (v : List α) (i : Int) : Except Fault α :=
  if 0 ≤ i then
    match v[i.toNat]? with
    | some a => .ok a
    | none => .error .outOfBounds
  else .error .outOfBounds

/-- Write `v[i] = a` of a vector with an `int` index. -/
def writeAt {α : Type} (v : List α) (i : Int) (a : α) : Except Fault (List α) :=
  if 0 ≤ i ∧ i < v.length then .ok (v.set i.toNat a) else .error .outOfBounds

/-! ## Data -/

/-- Modelled from the spec: the declaration of `Ex` is in `bert/albert_example_parser.h`, which
is not among the sources. Its fields are the ones the source uses (`x`, `types`, `target`,
`indexies`, `ordered`); by the spec (§3, Example) the tokens and the parallel segment types
have the length given to the constructor and start as the sentinel 0, and the target lists
start empty. -/
structure Ex where
  x : List Int
  types : List Int
  target : List Int
  indexies : List Int
  ordered : Int
  deriving DecidableEq, Repr

/-- Modelled from the spec: the constructor `Ex(len)` of the missing header, see `Ex`. -/
def Ex.new (len : Nat) : Ex :=
  { x := List.replicate len 0, types := List.replicate len 0, target := [], indexies := [],
    ordered := 0 }

/-- Modelled from the spec: `torch::tensor(...)` of the external tensor library, kept as the
data it is built from (a vector of ints, or one int); `undefined` is a default-constructed
tensor. -/
inductive Tensor where
  | undefined
  | ofInts (v : List Int)
  | ofInt (v : Int)
  deriving DecidableEq, Repr

/-- Modelled from the spec: `data::LlbExample` is declared outside the sources; these are the
two members `ParseOne` touches. -/
structure LlbExample where
  features : List Tensor
  target : Tensor
  deriving DecidableEq, Repr

/-! ## Randomness -/

/-- The float literal `0.8` of `p > 0.8`. -/
def p_mask : ℚ := Rat.mk' 4 5 (by decide) (by decide)

/-- The float literal `0.5` of `p2 <= 0.5` and of the order draw. -/
def p_half : ℚ := Rat.mk' 1 2 (by decide) (by decide)

/-- Results of the draws made from the generator `gen_`. -/
structure Gen where
  /-- `random_p_dist_(gen_)` in `ParseOne` (the order draw) -/
  order_p : ℚ
  /-- `ranoff_p(gen_)` -/
  ranoff_p : Int
  /-- `ranmid_p(gen_)` -/
  ranmid_p : Int
  /-- `len_dist_(gen_)` at the given iteration of the span loop -/
  len_dist_ : Nat → Int
  /-- `off_dist(gen_)` at the given iteration of the span loop -/
  off_dist : Nat → Int
  /-- first draw `p = random_p_dist_(gen_)` at the given position -/
  p : Int → ℚ
  /-- second draw `p2 = random_p_dist_(gen_)` at the given position -/
  p2 : Int → ℚ
  /-- `random_id_dist_(gen_)` at the given position -/
  random_id_dist_ : Int → Int

/-! ## `_mask_seq` -/

/-- Source lines 31-33: `for (int i = 0; i < len; i += 4) offs.push_back(i);`
(the first argument bounds the number of iterations). -/
def pushOffs (len : Int) : Nat → Int → List Int
  | 0, _ => []
  | fuel + 1, i => if i < len then i :: pushOffs len fuel (i + 4) else []

/-- The vector `offs` before it is shuffled. -/
def initOffs (len : Int) : List Int := pushOffs len len.toNat 0

/-- State of the span loop: the vector `masked` and the counter `num_masked`. The field
`accepted` is a ghost record (not in the source) of the spans accepted so far, as
(start, length), in order of acceptance; nothing reads it. -/
structure SpanState where
  masked : List Bool
  num_masked : Int
  accepted : List (Int × Int)
  deriving DecidableEq, Repr

/-- Source lines 53-59: the validity loop, from index `i`, with `n` iterations left.
The three tests are evaluated left to right and stop at the first that holds. -/
def spanValid (sepId len : Int) (masked : List Bool) (x : List Int) (off : Int) :
    Nat → Int → Except Fault Bool
  | 0, _ => .ok true
  | n + 1, i =>
    if i + off ≥ len then .ok false
    else do
      let m ← readAt masked (i + off)
      if m then .ok false
      else do
        let t ← readAt x (i + off)
        if t = sepId then .ok false
        else spanValid sepId len masked x off n (i + 1)

/-- Source lines 62-64: `for (int i = 0; i < drawLen; i++) masked[i + off] = true;` -/
def markSpan (off : Int) : Nat → Int → List Bool → Except Fault (List Bool)
  | 0, _, masked => .ok masked
  | n + 1, i, masked => do
    let m ← writeAt masked (i + off) true
    markSpan off n (i + 1) m

/-- Source lines 37-67: the span-selection loop over the (shuffled) candidates; `it` is the
number of the iteration. -/
def spanLoop (g : Gen) (sepId len : Int) (x : List Int) :
    List Int → Nat → SpanState → Except Fault SpanState
  | [], _, st => .ok st
  | p :: rest, it, st =>
    let off := p * 4
    if st.num_masked ≥ kMaxLabel then .ok st
    else
      let drawLen := g.len_dist_ it + 1
      if drawLen + st.num_masked > kMaxLabel then spanLoop g sepId len x rest (it + 1) st
      else
        let off := off + g.off_dist it
        if off = 0 then spanLoop g sepId len x rest (it + 1) st
        else do
          let valid ← spanValid sepId len st.masked x off drawLen.toNat 0
          if valid then do
            let m ← markSpan off drawLen.toNat 0 st.masked
            spanLoop g sepId len x rest (it + 1)
              { masked := m, num_masked := st.num_masked + drawLen,
                accepted := st.accepted ++ [(off, drawLen)] }
          else spanLoop g sepId len x rest (it + 1) st

/-- Source lines 70-79: the replacement chosen from the draws, 0 meaning "keep". -/
def toReplace (p p2 : ℚ) (randomId maskId : Int) : Int :=
  if p > p_mask then (if p2 ≤ p_half then randomId else 0) else maskId

/-- Source lines 68-86: the corruption loop, from position `i`, with `n` positions left. -/
def corruptLoop (g : Gen) (maskId : Int) (masked : List Bool) : Nat → Int → Ex → Except Fault Ex
  | 0, _, ex => .ok ex
  | n + 1, i, ex => do
    let m ← readAt masked i
    if m then do
      let r := toReplace (g.p i) (g.p2 i) (g.random_id_dist_ i) maskId
      let t ← readAt ex.x i
      let ex1 := { ex with target := ex.target ++ [t], indexies := ex.indexies ++ [i] }
      if r ≠ 0 then do
        let x1 ← writeAt ex1.x i r
        corruptLoop g maskId masked n (i + 1) { ex1 with x := x1 }
      else corruptLoop g maskId masked n (i + 1) ex1
    else corruptLoop g maskId masked n (i + 1) ex

/-- Source lines 88-91: the padding loop, with `n` iterations left. -/
def padLoop : Nat → Ex → Ex
  | 0, ex => ex
  | n + 1, ex => padLoop n { ex with target := ex.target ++ [0], indexies := ex.indexies ++ [0] }

/-- Source lines 30-36: the candidates, shuffled, and the fresh vector `masked`. -/
def spanInit (len : Int) : Except Fault SpanState :=
  if len < 0 then .error .lengthError
  else .ok { masked := List.replicate len.toNat false, num_masked := 0, accepted := [] }

/-- Source lines 30-67: the state after the span-selection loop. -/
def selectSpans (g : Gen) (shuffle : List Int → List Int) (sepId len : Int) (x : List Int) :
    Except Fault SpanState := do
  let offs := shuffle (initOffs len)
  let st ← spanInit len
  spanLoop g sepId len x offs 0 st

/-- Source lines 68-86: the example after the corruption loop (before the padding). -/
def corrupt (g : Gen) (maskId len : Int) (masked : List Bool) (ex : Ex) : Except Fault Ex :=
  corruptLoop g maskId masked len.toNat 0 ex

/-- Source lines 28-93: `ALBertExampleParser::_mask_seq`. -/
def _mask_seq (g : Gen) (shuffle : List Int → List Int) (maskId sepId totalVocabSize len : Int)
    (ex : Ex) : Except Fault (Bool × Ex) := do
  let _ := totalVocabSize
  let st ← selectSpans g shuffle sepId len ex.x
  let ex ← corrupt g maskId len st.masked ex
  if (ex.target.length : Int) ≤ kMaxLabel then
    .ok (true, padLoop (kMaxLabel - ex.target.length).toNat ex)
  else .error .checkFailed

/-! ## `ParseOne` -/

/-- Source lines 142-146 (and 151-155, 157-161, 165-169):
`for (int i = a; i < b; i++) { ex.x[k] = ids[i]; ex.types[k] = ty; k += 1; }`,
from index `i`, with `n` iterations left. -/
def copyRange (ids : List Int) (ty : Int) : Nat → Int → Int → Ex → Except Fault (Ex × Int)
  | 0, _, k, ex => .ok (ex, k)
  | n + 1, i, k, ex => do
    let t ← readAt ids i
    let x1 ← writeAt ex.x k t
    let ty1 ← writeAt ex.types k ty
    copyRange ids ty n (i + 1) (k + 1) { ex with x := x1, types := ty1 }

/-- Source lines 147-149 (and 162-164): `ex.types[k] = 1; ex.x[k] = sepId; k += 1;` -/
def putSep (sepId k : Int) (ex : Ex) : Except Fault (Ex × Int) := do
  let ty1 ← writeAt ex.types k 1
  let x1 ← writeAt ex.x k sepId
  .ok ({ ex with x := x1, types := ty1 }, k + 1)

/-- Source lines 129-132: the clipped end of the usable range. -/
def clipEnd (total off : Int) : Int :=
  if total - off > kMaxLen - 1 then off + kMaxLen - 1 else total

/-- Source line 133: `(end - off) / 3`, the C++ division (truncating). -/
def thirdthLen (total off : Int) : Int := (clipEnd total off - off).tdiv 3

/-- Source lines 140-170: the two segments and the separator written after `[CLS]`. -/
def layout (ids : List Int) (sepId off mid end_ : Int) (ex : Ex) : Except Fault (Ex × Int) :=
  if ex.ordered ≠ 0 then do
    let (ex, k) ← copyRange ids 1 (mid - off).toNat off 1 ex
    let (ex, k) ← putSep sepId k ex
    copyRange ids 2 (end_ - (mid + 1)).toNat (mid + 1) k ex
  else do
    let (ex, k) ← copyRange ids 1 (end_ - (mid + 1)).toNat (mid + 1) 1 ex
    let (ex, k) ← putSep sepId k ex
    copyRange ids 2 (mid - off).toNat off k ex

/-- Source lines 116-170: the example and the length `k` handed to `_mask_seq`, or `none`
when the function returns `false` at line 136 ("too short"). -/
def assemble (g : Gen) (ids : List Int) (totalVocabSize : Int) :
    Except Fault (Option (Ex × Int)) := do
  let ex := Ex.new (kMaxLen + 1).toNat
  let clsId := totalVocabSize
  let sepId := totalVocabSize + 2
  let x0 ← writeAt ex.x 0 clsId
  let ex := { ex with x := x0 }
  let ex := { ex with ordered := if g.order_p ≤ p_half then 1 else 0 }
  let total : Int := ids.length
  let off := g.ranoff_p
  let end_ := clipEnd total off
  if thirdthLen total off < 5 then .ok none
  else do
    let mid := g.ranmid_p
    let r ← layout ids sepId off mid end_ ex
    .ok (some r)

/-- Source lines 175-184: the four features and the target pushed into `example`. -/
def emit (example_ : LlbExample) (ex : Ex) : LlbExample :=
  { features := example_.features ++
      [Tensor.ofInts ex.x, Tensor.ofInts ex.indexies, Tensor.ofInts ex.types,
       Tensor.ofInt ex.ordered],
    target := Tensor.ofInts ex.target }

/-- Source lines 110-186: `ALBertExampleParser::ParseOne`, from the encoder's ids on. The
result is the returned `bool` and the output argument `example`. -/
def ParseOne (g : Gen) (shuffle : List Int → List Int) (ids : List Int) (totalVocabSize : Int)
    (example_ : LlbExample) : Except Fault (Bool × LlbExample) := do
  let maskId := totalVocabSize + 1
  let sepId := totalVocabSize + 2
  match ← assemble g ids totalVocabSize with
  | none => .ok (false, example_)
  | some (ex, k) =>
    let (ok, ex) ← _mask_seq g shuffle maskId sepId totalVocabSize k ex
    if ok then .ok (true, emit example_ ex) else .ok (false, example_)

/-! ## Supports of the draws -/

/-- Supports of the draws of the span loop: `len_dist_` is a discrete distribution over three
weights `{6, 3, 2}`, so it returns 0, 1 or 2 (`drawLen` is 1, 2 or 3), and `off_dist` is
`std::uniform_int_distribution<>(0, 5 - drawLen)`. -/
def SpanDrawsOk (g : Gen) : Prop :=
  ∀ it : Nat, 0 ≤ g.len_dist_ it ∧ g.len_dist_ it ≤ 2 ∧
    0 ≤ g.off_dist it ∧ g.off_dist it ≤ 5 - (g.len_dist_ it + 1)

/-- Support of `random_id_dist_`, set in `Init` (source line 106) to
`std::uniform_int_distribution<>(1, totalVocab - 1)`. -/
def IdDrawsOk (g : Gen) (totalVocabSize : Int) : Prop :=
  ∀ q : Int, 1 ≤ g.random_id_dist_ q ∧ g.random_id_dist_ q ≤ totalVocabSize - 1

/-- Postcondition of `std::random_shuffle`: the range is a permutation of what it held. -/
def ShuffleOk (shuffle : List Int → List Int) : Prop := ∀ l, (shuffle l).Perm l

/-- The draws of `ParseOne` split the usable range: `0 <= off <= mid < end`. It holds for
the values the two `std::discrete_distribution<>` objects of the source can return and for
the ranges the specification gives (see `splitOk_of_library` and `splitOk_of_spec`). -/
def SplitOk (g : Gen) (total : Int) : Prop :=
  0 ≤ g.ranoff_p ∧ g.ranoff_p ≤ g.ranmid_p ∧ g.ranmid_p < clipEnd total g.ranoff_p

/-- The values the two distributions of `ParseOne` return under the C++ standard library.
`std::discrete_distribution<>` has no constructor from a range of values: with two `int`
arguments `(n, w)` the iterator-pair constructor is chosen, the weight vector is built as
`std::vector<double>(n, w)` (`n` copies of `w`), and a draw is an index of that vector, 0 when
it has fewer than two entries. So `ranoff_p(0, 3)` always returns 0 and
`ranmid_p(thirdthLen, 2 * thirdthLen - 1)` returns an index in `[0, thirdthLen)`. -/
def LibraryDraws (g : Gen) (total : Int) : Prop :=
  g.ranoff_p = 0 ∧ 0 ≤ g.ranmid_p ∧ g.ranmid_p < thirdthLen total 0

/-- The ranges the specification gives for the two draws: `off` in `{0,1,2,3}` and `mid` in
`[off + thirdLen, off + 2*thirdLen - 1]`. -/
def SpecDraws (g : Gen) (total : Int) : Prop :=
  0 ≤ g.ranoff_p ∧ g.ranoff_p ≤ 3 ∧
    g.ranoff_p + thirdthLen total g.ranoff_p ≤ g.ranmid_p ∧
    g.ranmid_p ≤ g.ranoff_p + 2 * thirdthLen total g.ranoff_p - 1

/-! ## Vocabulary of the statements -/

/-- The vector `m` with the `n` entries from `s` on set to `true`. -/
def setRange : Nat → Nat → List Bool → List Bool
  | _, 0, m => m
  | s, n + 1, m => setRange (s + 1) n (m.set s true)

/-- The positions `q` of `[i, i + n)` with `masked[q]`, in ascending order. -/
def maskedIn (masked : List Bool) (i n : Nat) : List Nat :=
  (List.range' i n).filter (fun q => masked[q]?.getD false)

/-- The token left at a masked position `q` that held `t`: the replacement, or `t` itself
when the replacement is the sentinel 0. -/
def corruptTok (g : Gen) (maskId t q : Int) : Int :=
  if toReplace (g.p q) (g.p2 q) (g.random_id_dist_ q) maskId ≠ 0 then
    toReplace (g.p q) (g.p2 q) (g.random_id_dist_ q) maskId
  else t

/-- Position `q` lies in the span `s = (start, length)`. -/
def inSpan (s : Int × Int) (q : Int) : Prop := s.1 ≤ q ∧ q < s.1 + s.2

/-- Invariant of the span loop. -/
structure SpanInv (sepId len : Int) (x : List Int) (st : SpanState) : Prop where
  len_eq : (st.masked.length : Int) = len
  count_eq : (st.masked.count true : Int) = st.num_masked
  le_max : st.num_masked ≤ kMaxLabel
  sum_eq : st.num_masked = (st.accepted.map Prod.snd).sum
  pos : ∀ q : Nat, st.masked[q]? = some true → 1 ≤ q ∧ ∃ t, x[q]? = some t ∧ t ≠ sepId
  disj : st.accepted.Pairwise (fun a b => ∀ q : Int, ¬ (inSpan a q ∧ inSpan b q))
  cover : ∀ q : Nat, st.masked[q]? = some true ↔ ∃ s ∈ st.accepted, inSpan s (q : Int)
  shape : ∀ s ∈ st.accepted, 1 ≤ s.1 ∧ 1 ≤ s.2 ∧ s.2 ≤ 3 ∧ s.1 + s.2 ≤ len

/-- Segment A of the specification: `ids[off..mid)`. -/
def segA (ids : List Int) (off mid : Int) : List Int :=
  (ids.drop off.toNat).take (mid - off).toNat

/-- Segment B of the specification: `ids[mid+1..end)`. -/
def segB (ids : List Int) (mid end_ : Int) : List Int :=
  (ids.drop (mid + 1).toNat).take (end_ - (mid + 1)).toNat

/-- The order label: 1 when the order draw is at most 0.5, else 0 (source lines 121-125). -/
def orderLabel (g : Gen) : Int := if g.order_p ≤ p_half then 1 else 0

/-- The segment emitted first: A when ordered, B otherwise. -/
def firstSeg (g : Gen) (ids : List Int) : List Int :=
  if orderLabel g ≠ 0 then segA ids g.ranoff_p g.ranmid_p
  else segB ids g.ranmid_p (clipEnd ids.length g.ranoff_p)

/-- The segment emitted second: B when ordered, A otherwise. -/
def secondSeg (g : Gen) (ids : List Int) : List Int :=
  if orderLabel g ≠ 0 then segB ids g.ranmid_p (clipEnd ids.length g.ranoff_p)
  else segA ids g.ranoff_p g.ranmid_p

/-- The emitted length `k = (end - off) + 1`. -/
def emittedLen (g : Gen) (ids : List Int) : Int :=
  clipEnd ids.length g.ranoff_p - g.ranoff_p + 1

/-- The example the specification describes before masking:
`[CLS] ++ first ++ [SEP] ++ second` padded with 0 to 200 entries, the types
`[0] ++ 1.. ++ 2..` padded alike, no targets yet. -/
def assembled (g : Gen) (ids : List Int) (totalVocabSize : Int) : Ex :=
  { x := [totalVocabSize] ++ firstSeg g ids ++ [totalVocabSize + 2] ++ secondSeg g ids ++
      List.replicate (200 - (emittedLen g ids).toNat) 0,
    types := [0] ++ List.replicate ((firstSeg g ids).length + 1) 1 ++
      List.replicate (secondSeg g ids).length 2 ++
      List.replicate (200 - (emittedLen g ids).toNat) 0,
    target := [], indexies := [], ordered := orderLabel g }

/-- Writing the targets back: `x[positions[j]] = targets[j]` for each `j`, in order. -/
def restore : List Int → List Int → List Int → List Int
  | xs, p :: ps, t :: ts => restore (xs.set p.toNat t) ps ts
  | xs, _, _ => xs

/-! ## Concrete data for the instances -/

/-- A generator whose span draws are always `drawLen = 2` with jitter 1, and whose corruption
draws always choose the mask token. -/
def genW : Gen where
  order_p := 0
  ranoff_p := 0
  ranmid_p := 3
  len_dist_ := fun _ => 1
  off_dist := fun _ => 1
  p := fun _ => 0
  p2 := fun _ => 0
  random_id_dist_ := fun _ => 7

/-- Thirty token ids `1..30`. -/
def idsW : List Int := (List.range 30).map (fun i => (i : Int) + 1)

/-- An example of eight tokens, `[CLS] 1 2 3 [SEP] 5 6 7` for a vocabulary of 100. -/
def exW : Ex :=
  { x := [100, 1, 2, 3, 102, 5, 6, 7], types := [0, 1, 1, 1, 1, 2, 2, 2], target := [],
    indexies := [], ordered := 1 }

/-- The weight vector of a `std::discrete_distribution<>` constructed from two `int`s
`(n, w)`: the constructor taking an iterator pair is chosen and forwards both to
`std::vector<double>(n, w)`, that is `n` copies of `w`. -/
def discreteWeights (n w : Int) : List Int := List.replicate n.toNat w

/-- The values a `std::discrete_distribution<>` with the given positive weights returns: an
index of the weight vector, and 0 when the vector has fewer than two entries. -/
def discreteSupport (weights : List Int) (v : Int) : Prop :=
  if weights.length < 2 then v = 0 else 0 ≤ v ∧ v < weights.length

/-- Source lines 38 and 47: the span start tested for the candidate `p` at iteration `it`,
`off = p * 4` and then `off += off_dist(gen_)`. -/
def spanStart (g : Gen) (p : Int) (it : Nat) : Int := p * 4 + g.off_dist it

/-- The generator `genW` with the midpoint draw 0. -/
def genM : Gen := { genW with ranmid_p := 0 }

/-- The generator `genW` with `drawLen = 1` at the first iteration of the span loop and
`drawLen = 2` at the later ones. -/
def genD : Gen := { genW with len_dist_ := fun it => if it = 0 then 0 else 1 }

/-- A sequence of 21 tokens, `[CLS] 1..9 [SEP] 11..20` for a vocabulary of 100. -/
def x21 : List Int :=
  [100, 1, 2, 3, 4, 5, 6, 7, 8, 9, 102, 11, 12, 13, 14, 15, 16, 17, 18, 19, 20]

/-! ## Lemmas -/

theorem readAt_eq {α : Type} (v : List α) (i : Int) (h0 : 0 ≤ i) (h1 : i < v.length) :
    ∃ a, readAt v i = .ok a ∧ v[i.toNat]? = some a := by
  have hlt : i.toNat < v.length := by omega
  refine ⟨v[i.toNat], ?_, List.getElem?_eq_getElem hlt⟩
  simp [readAt, h0, List.getElem?_eq_getElem hlt]

theorem writeAt_eq {α : Type} (v : List α) (i : Int) (a : α) (h0 : 0 ≤ i) (h1 : i < v.length) :
    writeAt v i a = .ok (v.set i.toNat a) := by
  simp [writeAt, h0, h1]

theorem pushOffs_nonneg (len : Int) : ∀ (fuel : Nat) (i : Int), 0 ≤ i →
    ∀ p ∈ pushOffs len fuel i, 0 ≤ p := by
  intro fuel
  induction fuel with
  | zero => intro i _ p hp; simp [pushOffs] at hp
  | succ n ih =>
    intro i hi p hp
    unfold pushOffs at hp
    split at hp
    · rcases List.mem_cons.mp hp with h | h
      · omega
      · exact ih (i + 4) (by omega) p h
    · simp at hp

theorem initOffs_nonneg (len : Int) : ∀ p ∈ initOffs len, 0 ≤ p :=
  pushOffs_nonneg len _ 0 (le_refl 0)

theorem length_setRange : ∀ (n s : Nat) (m : List Bool), (setRange s n m).length = m.length := by
  intro n
  induction n with
  | zero => intro s m; rfl
  | succ n ih => intro s m; simp [setRange, ih]

theorem getElem?_setRange : ∀ (n s : Nat) (m : List Bool) (q : Nat), s + n ≤ m.length →
    (setRange s n m)[q]? = if s ≤ q ∧ q < s + n then some true else m[q]? := by
  intro n
  induction n with
  | zero =>
    intro s m q _
    rw [setRange, if_neg (by omega)]
  | succ n ih =>
    intro s m q h
    rw [setRange, ih (s + 1) (m.set s true) q (by simp; omega)]
    by_cases h1 : s + 1 ≤ q ∧ q < s + 1 + n
    · rw [if_pos h1, if_pos (by omega)]
    · rw [if_neg h1]
      by_cases h2 : s = q
      · subst h2
        rw [if_pos (by omega)]
        have hs : s < m.length := by omega
        simp [List.getElem?_set, hs]
      · rw [if_neg (by omega)]
        simp [List.getElem?_set, h2]

theorem count_set_true (m : List Bool) (s : Nat) (h : m[s]? = some false) :
    (m.set s true).count true = m.count true + 1 := by
  obtain ⟨hs, hv⟩ := List.getElem?_eq_some.mp h
  rw [List.count_set true true m s hs]
  simp [hv]

theorem count_setRange : ∀ (n s : Nat) (m : List Bool),
    (∀ j, j < n → m[s + j]? = some false) →
    (setRange s n m).count true = m.count true + n := by
  intro n
  induction n with
  | zero => intro s m _; rfl
  | succ n ih =>
    intro s m h
    rw [setRange, ih (s + 1) (m.set s true), count_set_true m s (by simpa using h 0 (by omega))]
    · omega
    · intro j hj
      have := h (j + 1) (by omega)
      rw [List.getElem?_set_ne (by omega)]
      rw [← this]; congr 1; omega

theorem markSpan_eq (off : Int) : ∀ (n : Nat) (i : Int) (m : List Bool), 0 ≤ i + off →
    i + off + n ≤ m.length → markSpan off n i m = .ok (setRange (i + off).toNat n m) := by
  intro n
  induction n with
  | zero => intro i m _ _; rfl
  | succ n ih =>
    intro i m h0 h1
    rw [markSpan, writeAt_eq m (i + off) true h0 (by omega)]
    simp only [bind, Except.bind]
    rw [ih (i + 1) _ (by omega) (by simp; omega), setRange]
    congr 2
    omega

theorem spanValid_spec (sepId len : Int) (masked : List Bool) (x : List Int) (off : Int)
    (hm : (masked.length : Int) = len) (hx : len ≤ x.length) :
    ∀ (n : Nat) (i : Int), 0 ≤ i + off →
    ∃ b, spanValid sepId len masked x off n i = .ok b ∧
      (b = true → ∀ j : Nat, j < n → i + off + j < len ∧
        masked[(i + off).toNat + j]? = some false ∧
        ∃ t, x[(i + off).toNat + j]? = some t ∧ t ≠ sepId) := by
  intro n
  induction n with
  | zero => intro i _; exact ⟨true, rfl, fun _ j hj => absurd hj (Nat.not_lt_zero j)⟩
  | succ n ih =>
    intro i h0
    unfold spanValid
    by_cases h1 : i + off ≥ len
    · exact ⟨false, by simp [h1], by simp⟩
    · obtain ⟨m, hm1, hm2⟩ := readAt_eq masked (i + off) h0 (by omega)
      obtain ⟨t, ht1, ht2⟩ := readAt_eq x (i + off) h0 (by omega)
      rw [if_neg h1, hm1]
      simp only [bind, Except.bind]
      cases m with
      | true => exact ⟨false, by simp, by simp⟩
      | false =>
        rw [ht1]
        simp only [Bool.false_eq_true, if_false]
        by_cases h2 : t = sepId
        · exact ⟨false, by simp [h2], by simp⟩
        · obtain ⟨b, hb1, hb2⟩ := ih (i + 1) (by omega)
          refine ⟨b, by simp [h2, hb1], ?_⟩
          intro hb j hj
          cases j with
          | zero => exact ⟨by simpa using (by omega : i + off < len), by simpa using hm2, t, by simpa using ht2, h2⟩
          | succ j =>
            have := hb2 hb j (by omega)
            have e : (i + 1 + off).toNat + j = (i + off).toNat + (j + 1) := by omega
            rw [e] at this
            refine ⟨by have := this.1; push_cast; omega, this.2⟩

theorem spanInv_accept (sepId len : Int) (x : List Int) (st : SpanState) (off drawLen : Int)
    (hinv : SpanInv sepId len x st) (hoff : 1 ≤ off) (hd1 : 1 ≤ drawLen) (hd3 : drawLen ≤ 3)
    (hmax : drawLen + st.num_masked ≤ kMaxLabel)
    (hv : ∀ j : Nat, j < drawLen.toNat → off + j < len ∧
        st.masked[off.toNat + j]? = some false ∧
        ∃ t, x[off.toNat + j]? = some t ∧ t ≠ sepId) :
    SpanInv sepId len x
      { masked := setRange off.toNat drawLen.toNat st.masked,
        num_masked := st.num_masked + drawLen,
        accepted := st.accepted ++ [(off, drawLen)] } := by
  have hlen := hinv.len_eq
  have hend : off + drawLen ≤ len := by
    have := (hv (drawLen.toNat - 1) (by omega)).1
    omega
  have hbound : off.toNat + drawLen.toNat ≤ st.masked.length := by omega
  have hget := fun q => getElem?_setRange drawLen.toNat off.toNat st.masked q hbound
  have hnew : ∀ q : Nat, (off.toNat ≤ q ∧ q < off.toNat + drawLen.toNat) ↔
      inSpan (off, drawLen) (q : Int) := by
    intro q; unfold inSpan; constructor <;> intro h <;> constructor <;> simp only at * <;> omega
  constructor
  · show ((setRange _ _ _).length : Int) = len
    rw [length_setRange]; exact hlen
  · show ((setRange _ _ _).count true : Int) = st.num_masked + drawLen
    rw [count_setRange _ _ _ (fun j hj => (hv j hj).2.1), ← hinv.count_eq]
    push_cast; omega
  · show st.num_masked + drawLen ≤ kMaxLabel
    omega
  · show st.num_masked + drawLen = ((st.accepted ++ [(off, drawLen)]).map Prod.snd).sum
    rw [List.map_append, List.sum_append, ← hinv.sum_eq]
    simp
  · intro q hq
    change (setRange _ _ _)[q]? = some true at hq
    rw [hget q] at hq
    by_cases hin : off.toNat ≤ q ∧ q < off.toNat + drawLen.toNat
    · refine ⟨by omega, ?_⟩
      have := (hv (q - off.toNat) (by omega)).2.2
      rwa [show off.toNat + (q - off.toNat) = q by omega] at this
    · rw [if_neg hin] at hq
      exact hinv.pos q hq
  · show (st.accepted ++ [(off, drawLen)]).Pairwise _
    rw [List.pairwise_append]
    refine ⟨hinv.disj, List.pairwise_singleton _ _, ?_⟩
    intro a ha b hb q hq
    rw [List.mem_singleton] at hb
    subst hb
    obtain ⟨hqa, hqb⟩ := hq
    have hq0 : 0 ≤ q := by
      have := (hinv.shape a ha).1
      unfold inSpan at hqa; omega
    have h1 : st.masked[q.toNat]? = some true :=
      (hinv.cover q.toNat).mpr ⟨a, ha, by rwa [Int.toNat_of_nonneg hq0]⟩
    unfold inSpan at hqb
    simp only at hqb
    have h2 := (hv (q.toNat - off.toNat) (by omega)).2.1
    rw [show off.toNat + (q.toNat - off.toNat) = q.toNat by omega, h1] at h2
    simp at h2
  · intro q
    change (setRange _ _ _)[q]? = some true ↔ ∃ s ∈ st.accepted ++ [(off, drawLen)], inSpan s q
    rw [hget q]
    constructor
    · intro h
      by_cases hin : off.toNat ≤ q ∧ q < off.toNat + drawLen.toNat
      · exact ⟨(off, drawLen), by simp, (hnew q).mp hin⟩
      · rw [if_neg hin] at h
        obtain ⟨s, hs, hsq⟩ := (hinv.cover q).mp h
        exact ⟨s, List.mem_append_left _ hs, hsq⟩
    · rintro ⟨s, hs, hsq⟩
      by_cases hin : off.toNat ≤ q ∧ q < off.toNat + drawLen.toNat
      · rw [if_pos hin]
      · rw [if_neg hin]
        rcases List.mem_append.mp hs with h | h
        · exact (hinv.cover q).mpr ⟨s, h, hsq⟩
        · rw [List.mem_singleton] at h
          subst h
          exact absurd ((hnew q).mpr hsq) hin
  · intro s hs
    rcases List.mem_append.mp hs with h | h
    · exact hinv.shape s h
    · rw [List.mem_singleton] at h
      subst h
      exact ⟨hoff, hd1, hd3, hend⟩

theorem spanLoop_inv (g : Gen) (sepId len : Int) (x : List Int) (hg : SpanDrawsOk g)
    (hx : len ≤ x.length) :
    ∀ (cands : List Int) (it : Nat) (st : SpanState), (∀ p ∈ cands, 0 ≤ p) →
      SpanInv sepId len x st →
      ∃ st1, spanLoop g sepId len x cands it st = .ok st1 ∧ SpanInv sepId len x st1 := by
  intro cands
  induction cands with
  | nil => intro it st _ hinv; exact ⟨st, rfl, hinv⟩
  | cons p rest ih =>
    intro it st hp hinv
    have hrest : ∀ p ∈ rest, 0 ≤ p := fun q hq => hp q (List.mem_cons_of_mem _ hq)
    have hp0 : 0 ≤ p := hp p (List.mem_cons_self _ _)
    obtain ⟨hl0, hl2, hj0, hj5⟩ := hg it
    unfold spanLoop
    simp only
    by_cases h1 : st.num_masked ≥ kMaxLabel
    · rw [if_pos h1]; exact ⟨st, rfl, hinv⟩
    rw [if_neg h1]
    by_cases h2 : g.len_dist_ it + 1 + st.num_masked > kMaxLabel
    · rw [if_pos h2]; exact ih (it + 1) st hrest hinv
    rw [if_neg h2]
    by_cases h3 : p * 4 + g.off_dist it = 0
    · rw [if_pos h3]; exact ih (it + 1) st hrest hinv
    rw [if_neg h3]
    have hoff : 1 ≤ p * 4 + g.off_dist it := by omega
    obtain ⟨b, hb1, hb2⟩ := spanValid_spec sepId len st.masked x (p * 4 + g.off_dist it)
      hinv.len_eq hx (g.len_dist_ it + 1).toNat 0 (by omega)
    rw [hb1]
    simp only [bind, Except.bind]
    cases b with
    | false => simpa using ih (it + 1) st hrest hinv
    | true =>
      have hv := hb2 rfl
      simp only [zero_add] at hv
      have hend : p * 4 + g.off_dist it + (g.len_dist_ it + 1) ≤ len := by
        have := (hv ((g.len_dist_ it + 1).toNat - 1) (by omega)).1
        omega
      rw [if_pos rfl, markSpan_eq _ _ _ _ (by omega) (by have := hinv.len_eq; omega)]
      simp only [zero_add]
      exact ih (it + 1) _ hrest
        (spanInv_accept sepId len x st _ _ hinv hoff (by omega) (by omega) (by omega) hv)

theorem spanInv_init (sepId len : Int) (x : List Int) (h0 : 0 ≤ len) :
    SpanInv sepId len x
      { masked := List.replicate len.toNat false, num_masked := 0, accepted := [] } := by
  constructor
  · simp; omega
  · simp [List.count_replicate]
  · simp [kMaxLabel]
  · simp
  · intro q hq
    simp [List.getElem?_replicate] at hq
  · exact List.Pairwise.nil
  · intro q
    simp [List.getElem?_replicate]
  · intro s hs
    simp at hs

theorem selectSpans_inv (g : Gen) (shuffle : List Int → List Int) (sepId len : Int)
    (x : List Int) (hg : SpanDrawsOk g) (hs : ShuffleOk shuffle) (h0 : 0 ≤ len)
    (hx : len ≤ x.length) :
    ∃ st, selectSpans g shuffle sepId len x = .ok st ∧ SpanInv sepId len x st := by
  unfold selectSpans spanInit
  rw [if_neg (by omega)]
  simp only [bind, Except.bind]
  refine spanLoop_inv g sepId len x hg hx _ 0 _ ?_ (spanInv_init sepId len x h0)
  intro p hp
  exact initOffs_nonneg len p ((hs (initOffs len)).mem_iff.mp hp)

theorem maskedIn_succ (masked : List Bool) (i n : Nat) :
    maskedIn masked i (n + 1) =
      if masked[i]? = some true then i :: maskedIn masked (i + 1) n
      else maskedIn masked (i + 1) n := by
  unfold maskedIn
  rw [List.range'_succ, List.filter_cons]
  cases h : masked[i]? with
  | none => simp
  | some b => cases b <;> simp

theorem mem_maskedIn (masked : List Bool) (i n q : Nat) :
    q ∈ maskedIn masked i n ↔ i ≤ q ∧ q < i + n ∧ masked[q]? = some true := by
  unfold maskedIn
  rw [List.mem_filter, List.mem_range'_1]
  cases h : masked[q]? with
  | none => simp
  | some b => cases b <;> simp

theorem corruptLoop_spec (g : Gen) (maskId : Int) (masked : List Bool) :
    ∀ (n i : Nat) (ex : Ex), i + n ≤ masked.length → masked.length ≤ ex.x.length →
    ∃ ex1, corruptLoop g maskId masked n (i : Int) ex = .ok ex1 ∧
      ex1.types = ex.types ∧ ex1.ordered = ex.ordered ∧
      ex1.indexies = ex.indexies ++ (maskedIn masked i n).map Int.ofNat ∧
      ex1.target = ex.target ++ (maskedIn masked i n).map (fun q => ex.x[q]?.getD 0) ∧
      ex1.x.length = ex.x.length ∧
      ∀ q : Nat, ex1.x[q]? =
        if q ∈ maskedIn masked i n then ex.x[q]?.map (fun t => corruptTok g maskId t q)
        else ex.x[q]? := by
  intro n
  induction n with
  | zero =>
    intro i ex _ _
    exact ⟨ex, rfl, rfl, rfl, by simp [maskedIn], by simp [maskedIn], rfl, by simp [maskedIn]⟩
  | succ n ih =>
    intro i ex h1 h2
    obtain ⟨m, hm1, hm2⟩ := readAt_eq masked (i : Int) (by omega) (by omega)
    obtain ⟨t, ht1, ht2⟩ := readAt_eq ex.x (i : Int) (by omega) (by omega)
    simp only [Int.toNat_ofNat] at hm2 ht2
    unfold corruptLoop
    rw [hm1]
    simp only [bind, Except.bind]
    have hcast : ((i : Int) + 1) = ((i + 1 : Nat) : Int) := by push_cast; rfl
    rw [hcast, maskedIn_succ, hm2]
    cases m with
    | false =>
      simp only [Bool.false_eq_true, if_false, Option.some.injEq]
      exact ih (i + 1) ex (by omega) h2
    | true =>
      simp only [if_true, ht1]
      have hmem : ∀ q ∈ maskedIn masked (i + 1) n, i ≠ q := by
        intro q hq; have := (mem_maskedIn masked (i + 1) n q).mp hq; omega
      by_cases hr : toReplace (g.p i) (g.p2 i) (g.random_id_dist_ i) maskId ≠ 0
      · rw [if_pos hr, writeAt_eq _ _ _ (by omega) (by simp; omega)]
        simp only [Int.toNat_ofNat]
        obtain ⟨ex1, e1, e2, e3, e4, e5, e6, e7⟩ := ih (i + 1)
          { x := ex.x.set i (toReplace (g.p i) (g.p2 i) (g.random_id_dist_ i) maskId),
            types := ex.types, target := ex.target ++ [t], indexies := ex.indexies ++ [(i : Int)],
            ordered := ex.ordered } (by omega) (by simp; omega)
        refine ⟨ex1, e1, e2, e3, by simp [e4], ?_, by simp [e6], ?_⟩
        · rw [e5]
          simp only [List.map_cons, List.append_assoc, List.singleton_append, ht2,
            Option.getD_some]
          congr 2
          apply List.map_congr_left
          intro q hq
          rw [List.getElem?_set_ne (hmem q hq)]
        · intro q
          rw [e7 q]
          by_cases hq : q = i
          · subst hq
            have : q ∉ maskedIn masked (q + 1) n := fun h => hmem q h rfl
            have hlt : q < ex.x.length := by omega
            simp [this, ht2, corruptTok, hr, List.getElem?_set, hlt]
          · simp [hq, List.getElem?_set_ne (Ne.symm hq)]
      · rw [if_neg hr]
        obtain ⟨ex1, e1, e2, e3, e4, e5, e6, e7⟩ := ih (i + 1)
          { x := ex.x,
            types := ex.types, target := ex.target ++ [t], indexies := ex.indexies ++ [(i : Int)],
            ordered := ex.ordered } (by omega) h2
        refine ⟨ex1, e1, e2, e3, by simp [e4], ?_, e6, ?_⟩
        · rw [e5]
          simp [ht2]
        · intro q
          rw [e7 q]
          by_cases hq : q = i
          · subst hq
            have : q ∉ maskedIn masked (q + 1) n := fun h => hmem q h rfl
            simp [this, ht2, corruptTok, hr]
          · simp [hq]

theorem padLoop_spec : ∀ (n : Nat) (ex : Ex),
    padLoop n ex = { ex with target := ex.target ++ List.replicate n 0,
                             indexies := ex.indexies ++ List.replicate n 0 } := by
  intro n
  induction n with
  | zero => intro ex; simp [padLoop]
  | succ n ih =>
    intro ex
    rw [padLoop, ih]
    simp [List.replicate_succ]

theorem length_maskedIn_take (masked : List Bool) : ∀ n : Nat, n ≤ masked.length →
    (maskedIn masked 0 n).length = (masked.take n).count true := by
  intro n
  induction n with
  | zero => intro _; simp [maskedIn]
  | succ n ih =>
    intro h
    have hn : n < masked.length := by omega
    have e : maskedIn masked 0 (n + 1) = maskedIn masked 0 n ++
        (if masked[n]? = some true then [n] else []) := by
      unfold maskedIn
      rw [List.range'_concat, List.filter_append]
      congr 1
      rw [List.getElem?_eq_getElem hn]
      cases hb : masked[n] <;> simp [List.getElem?_eq_getElem hn, hb]
    rw [e, List.length_append, ih (by omega), List.take_succ, List.count_append,
      List.getElem?_eq_getElem hn]
    cases masked[n] <;> simp

theorem length_maskedIn (masked : List Bool) :
    (maskedIn masked 0 masked.length).length = masked.count true := by
  rw [length_maskedIn_take masked masked.length (le_refl _), List.take_length]

theorem mask_seq_spec (g : Gen) (shuffle : List Int → List Int)
    (maskId sepId totalVocabSize len : Int) (ex : Ex)
    (hg : SpanDrawsOk g) (hs : ShuffleOk shuffle) (h0 : 0 ≤ len) (hx : len ≤ ex.x.length)
    (ht : ex.target = []) (hi : ex.indexies = []) :
    ∃ st ex1, selectSpans g shuffle sepId len ex.x = .ok st ∧ SpanInv sepId len ex.x st ∧
      corrupt g maskId len st.masked ex = .ok ex1 ∧
      ex1.types = ex.types ∧ ex1.ordered = ex.ordered ∧
      ex1.indexies = (maskedIn st.masked 0 len.toNat).map Int.ofNat ∧
      ex1.target = (maskedIn st.masked 0 len.toNat).map (fun q => ex.x[q]?.getD 0) ∧
      ex1.x.length = ex.x.length ∧
      (∀ q : Nat, ex1.x[q]? =
        if st.masked[q]? = some true then ex.x[q]?.map (fun t => corruptTok g maskId t q)
        else ex.x[q]?) ∧
      (maskedIn st.masked 0 len.toNat).length = st.masked.count true ∧
      _mask_seq g shuffle maskId sepId totalVocabSize len ex =
        .ok (true, { ex1 with
          target := ex1.target ++ List.replicate (28 - st.masked.count true) 0,
          indexies := ex1.indexies ++ List.replicate (28 - st.masked.count true) 0 }) := by
  obtain ⟨st, hst, hinv⟩ := selectSpans_inv g shuffle sepId len ex.x hg hs h0 hx
  have hlen : st.masked.length = len.toNat := by have := hinv.len_eq; omega
  obtain ⟨ex1, e1, e2, e3, e4, e5, e6, e7⟩ := corruptLoop_spec g maskId st.masked len.toNat 0 ex
    (by omega) (by omega)
  have hcnt : (maskedIn st.masked 0 len.toNat).length = st.masked.count true := by
    rw [← hlen]; exact length_maskedIn st.masked
  rw [ht] at e5
  rw [hi] at e4
  simp only [List.nil_append] at e4 e5
  refine ⟨st, ex1, hst, hinv, e1, e2, e3, e4, e5, e6, ?_, hcnt, ?_⟩
  · intro q
    rw [e7 q]
    have : q ∈ maskedIn st.masked 0 len.toNat ↔ st.masked[q]? = some true := by
      rw [mem_maskedIn]
      constructor
      · intro h; exact h.2.2
      · intro h
        obtain ⟨hq, _⟩ := List.getElem?_eq_some.mp h
        exact ⟨by omega, by omega, h⟩
    simp only [this]
  · unfold _mask_seq
    rw [hst]
    simp only [bind, Except.bind]
    have e1b : corrupt g maskId len st.masked ex = .ok ex1 := e1
    rw [e1b]
    simp only
    have htl : ex1.target.length = st.masked.count true := by rw [e5, List.length_map, hcnt]
    have hle : (st.masked.count true : Int) ≤ kMaxLabel := by
      rw [hinv.count_eq]; exact hinv.le_max
    rw [htl, if_pos hle, padLoop_spec]
    have : (kMaxLabel - (st.masked.count true : Int)).toNat = 28 - st.masked.count true := by
      unfold kMaxLabel at *; omega
    rw [this]

theorem set_append_replicate {α : Type} (pre : List α) (r : Nat) (z t : α) (hr : 0 < r) :
    (pre ++ List.replicate r z).set pre.length t = (pre ++ [t]) ++ List.replicate (r - 1) z := by
  obtain ⟨r, rfl⟩ : ∃ r1, r = r1 + 1 := ⟨r - 1, by omega⟩
  rw [List.set_append, if_neg (by omega)]
  simp [List.replicate_succ]

theorem copyRange_spec (ids : List Int) (ty : Int) :
    ∀ (n : Nat) (i k : Int) (ex : Ex) (pre tpre : List Int) (r : Nat),
      0 ≤ i → i + n ≤ ids.length →
      ex.x = pre ++ List.replicate r 0 → ex.types = tpre ++ List.replicate r 0 →
      k = pre.length → k = tpre.length → n ≤ r →
      copyRange ids ty n i k ex =
        .ok ({ ex with
                x := pre ++ (ids.drop i.toNat).take n ++ List.replicate (r - n) 0,
                types := tpre ++ List.replicate n ty ++ List.replicate (r - n) 0 }, k + n) := by
  intro n
  induction n with
  | zero =>
    intro i k ex pre tpre r _ _ hx ht _ _ _
    simp [copyRange, ← hx, ← ht]
  | succ n ih =>
    intro i k ex pre tpre r hi0 hi hx ht hk hkt hn
    have hlt : i.toNat < ids.length := by omega
    obtain ⟨t, h1, h2⟩ := readAt_eq ids i hi0 (by omega)
    have ht' : t = ids[i.toNat] := by
      rw [List.getElem?_eq_getElem hlt] at h2; exact (Option.some.inj h2).symm
    unfold copyRange
    rw [h1]
    simp only [bind, Except.bind]
    rw [writeAt_eq _ _ _ (by omega) (by rw [hx]; simp; omega),
      writeAt_eq _ _ _ (by omega) (by rw [ht]; simp; omega)]
    simp only
    have hkn : k.toNat = pre.length := by omega
    have hkn2 : k.toNat = tpre.length := by omega
    rw [ih (i + 1) (k + 1) _ (pre ++ [t]) (tpre ++ [ty]) (r - 1) (by omega)
      (by push_cast at hi ⊢; omega)
      (by simp only; rw [hx, hkn]; exact set_append_replicate pre r 0 t (by omega))
      (by simp only; rw [ht, hkn2]; exact set_append_replicate tpre r 0 ty (by omega))
      (by simp; omega) (by simp; omega) (by omega)]
    have e1 : (i + 1).toNat = i.toNat + 1 := by omega
    have e2 : r - 1 - n = r - (n + 1) := by omega
    have e3 : List.take (n + 1) (List.drop i.toNat ids) =
        t :: List.take n (List.drop (i.toNat + 1) ids) := by
      rw [List.drop_eq_getElem_cons hlt, List.take_succ_cons, ht']
    rw [e1, e2, e3]
    simp only [List.append_assoc, List.singleton_append, List.replicate_succ, List.cons_append,
      Nat.cast_add, Nat.cast_one]
    congr 2
    omega

theorem putSep_spec (sepId k : Int) (ex : Ex) (pre tpre : List Int) (r : Nat)
    (hx : ex.x = pre ++ List.replicate r 0) (ht : ex.types = tpre ++ List.replicate r 0)
    (hk : k = pre.length) (hkt : k = tpre.length) (hr : 0 < r) :
    putSep sepId k ex =
      .ok ({ ex with x := pre ++ [sepId] ++ List.replicate (r - 1) 0,
                     types := tpre ++ [1] ++ List.replicate (r - 1) 0 }, k + 1) := by
  unfold putSep
  have hkn : k.toNat = pre.length := by omega
  have hkn2 : k.toNat = tpre.length := by omega
  rw [writeAt_eq _ _ _ (by omega) (by rw [ht]; simp; omega)]
  simp only [bind, Except.bind]
  rw [writeAt_eq _ _ _ (by omega) (by rw [hx]; simp; omega)]
  rw [hx, ht, hkn, set_append_replicate pre r 0 sepId hr, ← hkn, hkn2,
    set_append_replicate tpre r 0 1 hr]

theorem three_steps (ids : List Int) (sepId cls : Int) (n1 n2 : Nat) (i1 i2 : Int) (ex : Ex)
    (hx : ex.x = [cls] ++ List.replicate 199 0) (ht : ex.types = [0] ++ List.replicate 199 0)
    (h1 : 0 ≤ i1) (h1' : i1 + n1 ≤ ids.length) (h2 : 0 ≤ i2) (h2' : i2 + n2 ≤ ids.length)
    (hn : n1 + 1 + n2 ≤ 199) :
    (do
      let (ex, k) ← copyRange ids 1 n1 i1 1 ex
      let (ex, k) ← putSep sepId k ex
      copyRange ids 2 n2 i2 k ex) =
    .ok ({ ex with
            x := [cls] ++ (ids.drop i1.toNat).take n1 ++ [sepId] ++ (ids.drop i2.toNat).take n2 ++
              List.replicate (198 - n1 - n2) 0,
            types := [0] ++ List.replicate (n1 + 1) 1 ++ List.replicate n2 2 ++
              List.replicate (198 - n1 - n2) 0 }, (n1 : Int) + n2 + 2) := by
  rw [copyRange_spec ids 1 n1 i1 1 ex [cls] [0] 199 h1 h1' hx ht (by simp) (by simp) (by omega)]
  simp only [bind, Except.bind]
  rw [putSep_spec sepId _ _ ([cls] ++ (ids.drop i1.toNat).take n1) ([0] ++ List.replicate n1 1)
    (199 - n1) rfl rfl (by simp; omega) (by simp; omega) (by omega)]
  simp only
  rw [copyRange_spec ids 2 n2 i2 _ _ ([cls] ++ (ids.drop i1.toNat).take n1 ++ [sepId])
    ([0] ++ List.replicate n1 1 ++ [1]) (199 - n1 - 1) h2 h2' rfl rfl (by simp; omega)
    (by simp; omega) (by omega)]
  have e : 199 - n1 - 1 - n2 = 198 - n1 - n2 := by omega
  simp only [e, List.replicate_succ', List.append_assoc]
  congr 2
  omega

theorem layout_spec (ids : List Int) (sepId cls off mid end_ : Int) (ex : Ex)
    (hx : ex.x = [cls] ++ List.replicate 199 0) (ht : ex.types = [0] ++ List.replicate 199 0)
    (h0 : 0 ≤ off) (h1 : off ≤ mid) (h2 : mid < end_) (h3 : end_ ≤ ids.length)
    (h4 : end_ - off ≤ 198) :
    layout ids sepId off mid end_ ex =
      .ok ({ ex with
              x := [cls] ++ (if ex.ordered ≠ 0 then segA ids off mid else segB ids mid end_) ++
                [sepId] ++ (if ex.ordered ≠ 0 then segB ids mid end_ else segA ids off mid) ++
                List.replicate (199 - (end_ - off).toNat) 0,
              types := [0] ++
                List.replicate ((if ex.ordered ≠ 0 then segA ids off mid
                  else segB ids mid end_).length + 1) 1 ++
                List.replicate (if ex.ordered ≠ 0 then segB ids mid end_
                  else segA ids off mid).length 2 ++
                List.replicate (199 - (end_ - off).toNat) 0 }, end_ - off + 1) := by
  have hA : (segA ids off mid).length = (mid - off).toNat := by
    unfold segA; rw [List.length_take, List.length_drop]; omega
  have hB : (segB ids mid end_).length = (end_ - (mid + 1)).toNat := by
    unfold segB; rw [List.length_take, List.length_drop]; omega
  unfold layout
  by_cases ho : ex.ordered ≠ 0
  · simp only [if_pos ho]
    rw [three_steps ids sepId cls _ _ off (mid + 1) ex hx ht h0 (by omega) (by omega) (by omega)
      (by omega)]
    rw [hA, hB]
    have e : 198 - (mid - off).toNat - (end_ - (mid + 1)).toNat = 199 - (end_ - off).toNat := by
      omega
    rw [e]
    unfold segA segB
    congr 2
    omega
  · simp only [if_neg ho]
    rw [three_steps ids sepId cls _ _ (mid + 1) off ex hx ht (by omega) (by omega) h0 (by omega)
      (by omega)]
    rw [hA, hB]
    have e : 198 - (end_ - (mid + 1)).toNat - (mid - off).toNat = 199 - (end_ - off).toNat := by
      omega
    rw [e]
    unfold segA segB
    congr 2
    omega

theorem clipEnd_le (total off : Int) : clipEnd total off ≤ total := by
  unfold clipEnd kMaxLen; split <;> omega

theorem clipEnd_sub_le (total off : Int) : clipEnd total off - off ≤ 198 := by
  unfold clipEnd kMaxLen; split <;> omega

theorem assemble_spec (g : Gen) (ids : List Int) (totalVocabSize : Int)
    (h5 : 5 ≤ thirdthLen ids.length g.ranoff_p) (hs : SplitOk g ids.length) :
    assemble g ids totalVocabSize =
      .ok (some (assembled g ids totalVocabSize, emittedLen g ids)) := by
  obtain ⟨h0, h1, h2⟩ := hs
  have hle := clipEnd_le ids.length g.ranoff_p
  have hsub := clipEnd_sub_le ids.length g.ranoff_p
  have hnew : Ex.new (kMaxLen + 1).toNat =
      { x := 0 :: List.replicate 199 0, types := 0 :: List.replicate 199 0, target := [],
        indexies := [], ordered := 0 } := rfl
  have hw : writeAt (0 :: List.replicate 199 (0 : Int)) 0 totalVocabSize =
      .ok ([totalVocabSize] ++ List.replicate 199 0) := by
    rw [writeAt_eq _ _ _ (le_refl 0) (by rw [List.length_cons]; omega)]
    rfl
  unfold assemble
  rw [hnew]
  dsimp only
  rw [hw]
  simp only [bind, Except.bind]
  rw [if_neg (by omega)]
  rw [layout_spec ids (totalVocabSize + 2) totalVocabSize g.ranoff_p g.ranmid_p _ _ rfl
    rfl h0 h1 h2 hle hsub]
  have e : 199 - (clipEnd ids.length g.ranoff_p - g.ranoff_p).toNat =
      200 - (emittedLen g ids).toNat := by unfold emittedLen; omega
  simp only [e]
  rfl

theorem length_assembled_x (g : Gen) (ids : List Int) (totalVocabSize : Int)
    (hs : SplitOk g ids.length) : (assembled g ids totalVocabSize).x.length = 200 := by
  obtain ⟨h0, h1, h2⟩ := hs
  have hle := clipEnd_le ids.length g.ranoff_p
  have hsub := clipEnd_sub_le ids.length g.ranoff_p
  have hA : (segA ids g.ranoff_p g.ranmid_p).length = (g.ranmid_p - g.ranoff_p).toNat := by
    unfold segA; rw [List.length_take, List.length_drop]; omega
  have hB : (segB ids g.ranmid_p (clipEnd ids.length g.ranoff_p)).length =
      (clipEnd ids.length g.ranoff_p - (g.ranmid_p + 1)).toNat := by
    unfold segB; rw [List.length_take, List.length_drop]; omega
  unfold assembled firstSeg secondSeg emittedLen
  split <;> simp [hA, hB] <;> omega

theorem ParseOne_spec (g : Gen) (shuffle : List Int → List Int) (ids : List Int)
    (totalVocabSize : Int) (example_ : LlbExample)
    (h5 : 5 ≤ thirdthLen ids.length g.ranoff_p) (hs : SplitOk g ids.length)
    (hg : SpanDrawsOk g) (hsh : ShuffleOk shuffle) :
    ∃ st ex1,
      selectSpans g shuffle (totalVocabSize + 2) (emittedLen g ids)
        (assembled g ids totalVocabSize).x = .ok st ∧
      SpanInv (totalVocabSize + 2) (emittedLen g ids) (assembled g ids totalVocabSize).x st ∧
      corrupt g (totalVocabSize + 1) (emittedLen g ids) st.masked
        (assembled g ids totalVocabSize) = .ok ex1 ∧
      ex1.indexies = (maskedIn st.masked 0 (emittedLen g ids).toNat).map Int.ofNat ∧
      ex1.target = (maskedIn st.masked 0 (emittedLen g ids).toNat).map
        (fun q => (assembled g ids totalVocabSize).x[q]?.getD 0) ∧
      (∀ q : Nat, ex1.x[q]? =
        if st.masked[q]? = some true then
          (assembled g ids totalVocabSize).x[q]?.map
            (fun t => corruptTok g (totalVocabSize + 1) t q)
        else (assembled g ids totalVocabSize).x[q]?) ∧
      ParseOne g shuffle ids totalVocabSize example_ =
        .ok (true,
          { features := example_.features ++
              [Tensor.ofInts ex1.x,
               Tensor.ofInts (ex1.indexies ++ List.replicate (28 - st.masked.count true) 0),
               Tensor.ofInts (assembled g ids totalVocabSize).types,
               Tensor.ofInt (orderLabel g)],
            target :=
              Tensor.ofInts (ex1.target ++ List.replicate (28 - st.masked.count true) 0) }) := by
  have hlen := length_assembled_x g ids totalVocabSize hs
  have hk0 : 0 ≤ emittedLen g ids := by
    obtain ⟨h0, h1, h2⟩ := hs; unfold emittedLen; omega
  have hk1 : emittedLen g ids ≤ ((assembled g ids totalVocabSize).x.length : Int) := by
    have := clipEnd_sub_le ids.length g.ranoff_p
    rw [hlen]; unfold emittedLen; omega
  obtain ⟨st, ex1, e1, e2, e3, e4, e5, e6, e7, e8, e9, e10, e11⟩ :=
    mask_seq_spec g shuffle (totalVocabSize + 1) (totalVocabSize + 2) totalVocabSize
      (emittedLen g ids) (assembled g ids totalVocabSize) hg hsh hk0 hk1 rfl rfl
  refine ⟨st, ex1, e1, e2, e3, e6, e7, e9, ?_⟩
  unfold ParseOne
  rw [assemble_spec g ids totalVocabSize h5 hs]
  simp only [bind, Except.bind]
  rw [e11]
  simp only [if_true, e4, e5]
  rfl

theorem tdiv_three (a : Int) (h : 0 ≤ a) : a.tdiv 3 = a / 3 :=
  Int.tdiv_eq_ediv h (by decide)

theorem splitOk_of_library (g : Gen) (total : Int) (h : LibraryDraws g total) :
    SplitOk g total := by
  obtain ⟨h0, h1, h2⟩ := h
  unfold SplitOk
  rw [h0]
  refine ⟨le_refl 0, h1, ?_⟩
  unfold thirdthLen at h2
  rw [sub_zero] at h2
  by_cases hc : 0 ≤ clipEnd total 0
  · rw [tdiv_three _ hc] at h2; omega
  · exfalso
    have : (clipEnd total 0).tdiv 3 ≤ 0 := by
      rw [← Int.neg_neg (clipEnd total 0), Int.neg_tdiv, tdiv_three _ (by omega)]; omega
    omega

theorem splitOk_of_spec (g : Gen) (total : Int) (h : SpecDraws g total)
    (h5 : 5 ≤ thirdthLen total g.ranoff_p) : SplitOk g total := by
  obtain ⟨h0, _, h2, h3⟩ := h
  unfold SplitOk
  unfold thirdthLen at h2 h3 h5
  by_cases hc : 0 ≤ clipEnd total g.ranoff_p - g.ranoff_p
  · rw [tdiv_three _ hc] at h2 h3 h5; omega
  · exfalso
    have : (clipEnd total g.ranoff_p - g.ranoff_p).tdiv 3 ≤ 0 := by
      rw [← Int.neg_neg (clipEnd total g.ranoff_p - g.ranoff_p), Int.neg_tdiv,
        tdiv_three _ (by omega)]; omega
    omega

/-! ## Claims -/

theorem spanDrawsOk_genW : SpanDrawsOk genW := by
  intro it
  show (0 : Int) ≤ 1 ∧ (1 : Int) ≤ 2 ∧ (0 : Int) ≤ 1 ∧ (1 : Int) ≤ 5 - (1 + 1)
  decide

theorem shuffleOk_id : ShuffleOk id := fun l => List.Perm.refl l

/-- C1: with `end = min(|ids|, off + kMaxLen - 1)` and `thirdthLen = (end - off) / 3`, when
`thirdthLen < 5` (equivalently `end - off < 15`), whatever the token ids and the offset draw, `ParseOne` returns `false` and the output example is the one it was given: no
feature and no target are produced. -/
theorem C1_too_short (g : Gen) (shuffle : List Int → List Int) (ids : List Int)
    (totalVocabSize : Int) (example_ : LlbExample) :
    clipEnd ids.length g.ranoff_p = min (ids.length : Int) (g.ranoff_p + kMaxLen - 1) ∧
    (thirdthLen ids.length g.ranoff_p < 5 ↔
      clipEnd ids.length g.ranoff_p - g.ranoff_p < 15) ∧
    (thirdthLen ids.length g.ranoff_p < 5 →
      ParseOne g shuffle ids totalVocabSize example_ = .ok (false, example_)) := by
  refine ⟨?_, ?_, ?_⟩
  · unfold clipEnd kMaxLen
    split <;> omega
  · unfold thirdthLen
    by_cases hc : 0 ≤ clipEnd ids.length g.ranoff_p - g.ranoff_p
    · rw [tdiv_three _ hc]; omega
    · have : (clipEnd ids.length g.ranoff_p - g.ranoff_p).tdiv 3 ≤ 0 := by
        rw [← Int.neg_neg (clipEnd ids.length g.ranoff_p - g.ranoff_p), Int.neg_tdiv,
          tdiv_three _ (by omega)]; omega
      omega
  · intro h
    have hw : writeAt (Ex.new (kMaxLen + 1).toNat).x 0 totalVocabSize =
        .ok ((Ex.new (kMaxLen + 1).toNat).x.set 0 totalVocabSize) :=
      writeAt_eq _ _ _ (le_refl 0) (by simp only [Ex.new, List.length_replicate]; decide)
    unfold ParseOne assemble
    dsimp only
    rw [hw]
    simp only [bind, Except.bind]
    rw [if_pos h]

/-- Witness of C1 on three tokens. -/
theorem C1_too_short_witness :
    thirdthLen ([1, 2, 3] : List Int).length genW.ranoff_p < 5 ∧
    ParseOne genW id [1, 2, 3] 100 ⟨[], .undefined⟩ = .ok (false, ⟨[], .undefined⟩) :=
  ⟨by decide, (C1_too_short genW id [1, 2, 3] 100 ⟨[], .undefined⟩).2.2 (by decide)⟩

theorem take_split (l : List Int) (o m e : Nat) (h1 : o ≤ m) (h2 : m < e) :
    (l.drop o).take (m - o) ++ (l.drop m).take 1 ++ (l.drop (m + 1)).take (e - (m + 1)) =
      (l.drop o).take (e - o) := by
  have e1 : e - o = (m - o) + (1 + (e - (m + 1))) := by omega
  rw [e1, List.take_add, List.take_add, List.drop_drop, List.drop_drop, List.append_assoc]
  have e2 : o + (m - o) = m := by omega
  have e3 : m + 1 = 1 + m := by omega
  simp only [e2, e3]
  try rfl

/-- C2: for draws that split the usable range (`0 <= off <= mid < end`) and
`thirdthLen >= 5`, the example that `ParseOne` hands to `_mask_seq` has the tokens
`[CLS] ++ first ++ [SEP] ++ second` followed by zeros up to length `kMaxLen + 1 = 200`, with
`first = A = ids[off..mid)` and `second = B = ids[mid+1..end)` when the order label is 1, and
`first = B`, `second = A` when it is 0; the emitted length is `k = (end - off) + 1`; the
usable range is `A`, then the token `ids[mid]`, then `B`, so `ids[mid]` has no slot. -/
theorem C2_layout (g : Gen) (ids : List Int) (totalVocabSize : Int)
    (h5 : 5 ≤ thirdthLen ids.length g.ranoff_p) (hs : SplitOk g ids.length) :
    ∃ ex k, assemble g ids totalVocabSize = .ok (some (ex, k)) ∧
      (∀ (shuffle : List Int → List Int) (example_ : LlbExample),
        ParseOne g shuffle ids totalVocabSize example_ =
          (do
            let (ok, ex1) ← _mask_seq g shuffle (totalVocabSize + 1) (totalVocabSize + 2)
              totalVocabSize k ex
            if ok then .ok (true, emit example_ ex1) else .ok (false, example_))) ∧
      k = clipEnd ids.length g.ranoff_p - g.ranoff_p + 1 ∧
      (ex.x.length : Int) = kMaxLen + 1 ∧
      ((ex.ordered = 1 ∧
          ex.x = [totalVocabSize] ++ segA ids g.ranoff_p g.ranmid_p ++ [totalVocabSize + 2] ++
            segB ids g.ranmid_p (clipEnd ids.length g.ranoff_p) ++
            List.replicate (200 - k.toNat) 0) ∨
        (ex.ordered = 0 ∧
          ex.x = [totalVocabSize] ++ segB ids g.ranmid_p (clipEnd ids.length g.ranoff_p) ++
            [totalVocabSize + 2] ++ segA ids g.ranoff_p g.ranmid_p ++
            List.replicate (200 - k.toNat) 0)) ∧
      segA ids g.ranoff_p g.ranmid_p ++ (ids.drop g.ranmid_p.toNat).take 1 ++
          segB ids g.ranmid_p (clipEnd ids.length g.ranoff_p) =
        (ids.drop g.ranoff_p.toNat).take (clipEnd ids.length g.ranoff_p - g.ranoff_p).toNat := by
  refine ⟨assembled g ids totalVocabSize, emittedLen g ids,
    assemble_spec g ids totalVocabSize h5 hs, ?_, rfl, ?_, ?_, ?_⟩
  · intro shuffle example_
    unfold ParseOne
    rw [assemble_spec g ids totalVocabSize h5 hs]
    rfl
  · rw [length_assembled_x g ids totalVocabSize hs]; rfl
  · unfold assembled firstSeg secondSeg orderLabel
    by_cases ho : g.order_p ≤ p_half
    · left; simp [ho]
    · right; simp [ho]
  · obtain ⟨h0, h1, h2⟩ := hs
    unfold segA segB
    have := take_split ids g.ranoff_p.toNat g.ranmid_p.toNat
      (clipEnd ids.length g.ranoff_p).toNat (by omega) (by omega)
    have e1 : (g.ranmid_p - g.ranoff_p).toNat = g.ranmid_p.toNat - g.ranoff_p.toNat := by omega
    have e2 : (g.ranmid_p + 1).toNat = g.ranmid_p.toNat + 1 := by omega
    have e3 : (clipEnd ids.length g.ranoff_p - (g.ranmid_p + 1)).toNat =
        (clipEnd ids.length g.ranoff_p).toNat - (g.ranmid_p.toNat + 1) := by omega
    have e4 : (clipEnd ids.length g.ranoff_p - g.ranoff_p).toNat =
        (clipEnd ids.length g.ranoff_p).toNat - g.ranoff_p.toNat := by omega
    rw [e1, e2, e3, e4]
    exact this

theorem splitOk_genW : SplitOk genW idsW.length := by
  refine ⟨by decide, by decide, by decide⟩

/-- Witness of C2 on thirty tokens. -/
theorem C2_layout_witness :
    5 ≤ thirdthLen idsW.length genW.ranoff_p ∧ SplitOk genW idsW.length ∧
    ∃ ex k, assemble genW idsW 100 = .ok (some (ex, k)) ∧ k = 31 ∧ ex.x.length = 200 :=
  ⟨by decide, splitOk_genW, by
    obtain ⟨ex, k, h1, _, h3, h4, _⟩ := C2_layout genW idsW 100 (by decide) splitOk_genW
    refine ⟨ex, k, h1, by rw [h3]; decide, ?_⟩
    have : kMaxLen + 1 = 200 := rfl
    omega⟩

/-- C3: entered with empty target and position lists, `_mask_seq` returns `true` with both
lists of length exactly `kMaxLabel = 28`: first the entries of the masked positions (the
positions, and the tokens they held), then only the pad value 0. -/
theorem C3_padded (g : Gen) (shuffle : List Int → List Int)
    (maskId sepId totalVocabSize len : Int) (ex : Ex)
    (hg : SpanDrawsOk g) (hs : ShuffleOk shuffle) (h0 : 0 ≤ len) (hx : len ≤ ex.x.length)
    (ht : ex.target = []) (hi : ex.indexies = []) :
    ∃ st ex2, selectSpans g shuffle sepId len ex.x = .ok st ∧
      _mask_seq g shuffle maskId sepId totalVocabSize len ex = .ok (true, ex2) ∧
      (ex2.target.length : Int) = kMaxLabel ∧ (ex2.indexies.length : Int) = kMaxLabel ∧
      (maskedIn st.masked 0 len.toNat).length ≤ 28 ∧
      ex2.indexies = (maskedIn st.masked 0 len.toNat).map Int.ofNat ++
        List.replicate (28 - (maskedIn st.masked 0 len.toNat).length) 0 ∧
      ex2.target = (maskedIn st.masked 0 len.toNat).map (fun q => ex.x[q]?.getD 0) ++
        List.replicate (28 - (maskedIn st.masked 0 len.toNat).length) 0 := by
  obtain ⟨st, ex1, e1, e2, _, _, _, e6, e7, _, _, e10, e11⟩ :=
    mask_seq_spec g shuffle maskId sepId totalVocabSize len ex hg hs h0 hx ht hi
  have hle : st.masked.count true ≤ 28 := by
    have h1 := e2.count_eq
    have h2 := e2.le_max
    unfold kMaxLabel at h2
    omega
  refine ⟨st, _, e1, e11, ?_, ?_, by omega, ?_, ?_⟩
  · simp only [List.length_append, List.length_replicate, e7, List.length_map, e10]
    unfold kMaxLabel; omega
  · simp only [List.length_append, List.length_replicate, e6, List.length_map, e10]
    unfold kMaxLabel; omega
  · simp only [e6, e10]
  · simp only [e7, e10]

/-- Witness of C3 on a sequence of eight tokens. -/
theorem C3_padded_witness :
    SpanDrawsOk genW ∧ ShuffleOk id ∧ (0 : Int) ≤ 8 ∧ (8 : Int) ≤ exW.x.length ∧
    exW.target = [] ∧ exW.indexies = [] ∧
    ∃ ex2, _mask_seq genW id 101 102 100 8 exW = .ok (true, ex2) ∧
      (ex2.target.length : Int) = kMaxLabel ∧ (ex2.indexies.length : Int) = kMaxLabel :=
  ⟨spanDrawsOk_genW, shuffleOk_id, by decide, by decide, rfl, rfl, by
    obtain ⟨_, ex2, _, h2, h3, h4, _⟩ := C3_padded genW id 101 102 100 8 exW
      spanDrawsOk_genW shuffleOk_id (by decide) (by decide) rfl rfl
    exact ⟨ex2, h2, h3, h4⟩⟩

/-- C4: after the span-selection loop the number of positions flagged in `masked` equals the
counter `num_masked`, which is the sum of the accepted span lengths and is at most
`kMaxLabel = 28`; the corruption loop records exactly one (target, position) pair per flagged
position, so at most 28 pairs, and a call entered with an empty target list passes the
`CHECK_LE` assertion and returns `true`. -/
theorem C4_budget (g : Gen) (shuffle : List Int → List Int)
    (maskId sepId totalVocabSize len : Int) (ex : Ex)
    (hg : SpanDrawsOk g) (hs : ShuffleOk shuffle) (h0 : 0 ≤ len) (hx : len ≤ ex.x.length) :
    ∃ st ex1, selectSpans g shuffle sepId len ex.x = .ok st ∧
      (st.masked.count true : Int) = st.num_masked ∧
      st.num_masked = (st.accepted.map Prod.snd).sum ∧
      st.num_masked ≤ kMaxLabel ∧
      corrupt g maskId len st.masked ex = .ok ex1 ∧
      ex1.target.length = ex.target.length + st.masked.count true ∧
      ex1.indexies.length = ex.indexies.length + st.masked.count true ∧
      (ex.target = [] → (ex1.target.length : Int) ≤ kMaxLabel ∧
        ∃ ex2, _mask_seq g shuffle maskId sepId totalVocabSize len ex = .ok (true, ex2)) := by
  obtain ⟨st, hst, hinv⟩ := selectSpans_inv g shuffle sepId len ex.x hg hs h0 hx
  have hlen : st.masked.length = len.toNat := by have := hinv.len_eq; omega
  obtain ⟨ex1, e1, _, _, e4, e5, _, _⟩ := corruptLoop_spec g maskId st.masked len.toNat 0 ex
    (by omega) (by omega)
  have hcnt : (maskedIn st.masked 0 len.toNat).length = st.masked.count true := by
    rw [← hlen]; exact length_maskedIn st.masked
  have hc : corrupt g maskId len st.masked ex = .ok ex1 := e1
  have htl : ex1.target.length = ex.target.length + st.masked.count true := by
    rw [e5, List.length_append, List.length_map, hcnt]
  refine ⟨st, ex1, hst, hinv.count_eq, hinv.sum_eq, hinv.le_max, hc, htl, ?_, ?_⟩
  · rw [e4, List.length_append, List.length_map, hcnt]
  · intro ht
    have hle : (ex1.target.length : Int) ≤ kMaxLabel := by
      rw [htl, ht]
      have h1 := hinv.count_eq
      have h2 := hinv.le_max
      simp only [List.length_nil, zero_add]
      omega
    refine ⟨hle, ?_⟩
    unfold _mask_seq
    rw [hst]
    simp only [bind, Except.bind]
    rw [hc]
    simp only
    rw [if_pos hle]
    exact ⟨_, rfl⟩

/-- Witness of C4 on a sequence of eight tokens. -/
theorem C4_budget_witness :
    SpanDrawsOk genW ∧ ShuffleOk id ∧ (0 : Int) ≤ 8 ∧ (8 : Int) ≤ exW.x.length ∧
    ∃ st, selectSpans genW id 102 8 exW.x = .ok st ∧
      (st.masked.count true : Int) = st.num_masked ∧ st.num_masked ≤ kMaxLabel :=
  ⟨spanDrawsOk_genW, shuffleOk_id, by decide, by decide, by
    obtain ⟨st, _, h1, h2, _, h4, _⟩ := C4_budget genW id 101 102 100 8 exW
      spanDrawsOk_genW shuffleOk_id (by decide) (by decide)
    exact ⟨st, h1, h2, h4⟩⟩

/-- C5: the spans accepted by `_mask_seq` are pairwise disjoint (no position lies in two of
them), the flagged positions are exactly the positions of the accepted spans, and every
flagged position `q` has `1 <= q < len` and holds a token other than `sepId`: position 0
(CLS) and the positions holding SEP are never masked. -/
theorem C5_disjoint (g : Gen) (shuffle : List Int → List Int) (sepId len : Int) (x : List Int)
    (hg : SpanDrawsOk g) (hs : ShuffleOk shuffle) (h0 : 0 ≤ len) (hx : len ≤ x.length) :
    ∃ st, selectSpans g shuffle sepId len x = .ok st ∧
      st.accepted.Pairwise (fun a b => ∀ q : Int, ¬ (inSpan a q ∧ inSpan b q)) ∧
      (∀ q : Nat, st.masked[q]? = some true ↔ ∃ s ∈ st.accepted, inSpan s (q : Int)) ∧
      (∀ q : Nat, st.masked[q]? = some true →
        1 ≤ q ∧ (q : Int) < len ∧ ∃ t, x[q]? = some t ∧ t ≠ sepId) ∧
      st.masked[0]? ≠ some true ∧
      (∀ q : Nat, x[q]? = some sepId → st.masked[q]? ≠ some true) := by
  obtain ⟨st, hst, hinv⟩ := selectSpans_inv g shuffle sepId len x hg hs h0 hx
  refine ⟨st, hst, hinv.disj, hinv.cover, ?_, ?_, ?_⟩
  · intro q hq
    obtain ⟨h1, h2⟩ := hinv.pos q hq
    obtain ⟨hlt, _⟩ := List.getElem?_eq_some.mp hq
    have := hinv.len_eq
    exact ⟨h1, by omega, h2⟩
  · intro h
    have := (hinv.pos 0 h).1
    omega
  · intro q hq h
    obtain ⟨_, t, ht, hne⟩ := hinv.pos q h
    rw [hq] at ht
    exact hne (Option.some.inj ht).symm

/-- Witness of C5 on a sequence of eight tokens. -/
theorem C5_disjoint_witness :
    SpanDrawsOk genW ∧ ShuffleOk id ∧ (0 : Int) ≤ 8 ∧ (8 : Int) ≤ exW.x.length ∧
    ∃ st, selectSpans genW id 102 8 exW.x = .ok st ∧ st.masked[0]? ≠ some true :=
  ⟨spanDrawsOk_genW, shuffleOk_id, by decide, by decide, by
    obtain ⟨st, h1, _, _, _, h5, _⟩ := C5_disjoint genW id 102 8 exW.x
      spanDrawsOk_genW shuffleOk_id (by decide) (by decide)
    exact ⟨st, h1, h5⟩⟩

theorem p_mask_eq : p_mask = 4 / 5 := by
  unfold p_mask
  rw [Rat.mk'_eq_divInt, Rat.divInt_eq_div]; norm_num

theorem p_half_eq : p_half = 1 / 2 := by
  unfold p_half
  rw [Rat.mk'_eq_divInt, Rat.divInt_eq_div]; norm_num

/-- C6: at a masked position with draws `p`, `p2` that held the token `t`, the token left
by `_mask_seq` (called with `maskId = totalVocabSize + 1`) is `maskId` if `p <= 0.8`, the
drawn random id, which lies in `[1, totalVocabSize - 1]`, if `p > 0.8` and `p2 <= 0.5`, and
`t` if `p > 0.8` and `p2 > 0.5`; the replacement is the sentinel 0 exactly in the third
case. The three pinned draws of the specification are the last three conjuncts. -/
theorem C6_policy (g : Gen) (shuffle : List Int → List Int)
    (sepId totalVocabSize len : Int) (ex : Ex)
    (hg : SpanDrawsOk g) (hs : ShuffleOk shuffle) (h0 : 0 ≤ len) (hx : len ≤ ex.x.length)
    (ht : ex.target = []) (hi : ex.indexies = []) (hid : IdDrawsOk g totalVocabSize) :
    (∃ st ex2, selectSpans g shuffle sepId len ex.x = .ok st ∧
      _mask_seq g shuffle (totalVocabSize + 1) sepId totalVocabSize len ex = .ok (true, ex2) ∧
      ∀ (q : Nat) (t : Int), st.masked[q]? = some true → ex.x[q]? = some t →
        (g.p q ≤ 4 / 5 → ex2.x[q]? = some (totalVocabSize + 1)) ∧
        (4 / 5 < g.p q → g.p2 q ≤ 1 / 2 →
          ex2.x[q]? = some (g.random_id_dist_ q) ∧
          1 ≤ g.random_id_dist_ q ∧ g.random_id_dist_ q ≤ totalVocabSize - 1) ∧
        (4 / 5 < g.p q → 1 / 2 < g.p2 q → ex2.x[q]? = some t) ∧
        (toReplace (g.p q) (g.p2 q) (g.random_id_dist_ q) (totalVocabSize + 1) = 0 ↔
          4 / 5 < g.p q ∧ 1 / 2 < g.p2 q)) ∧
    (∀ randomId maskId : Int, toReplace (9 / 10) (3 / 10) randomId maskId = randomId) ∧
    (∀ randomId maskId : Int, toReplace (9 / 10) (7 / 10) randomId maskId = 0) ∧
    (∀ (p2 : ℚ) (randomId maskId : Int), toReplace (1 / 2) p2 randomId maskId = maskId) := by
  refine ⟨?_, ?_, ?_, ?_⟩
  · obtain ⟨st, ex1, e1, _, _, _, _, _, _, _, e9, _, e11⟩ :=
      mask_seq_spec g shuffle (totalVocabSize + 1) sepId totalVocabSize len ex hg hs h0 hx ht hi
    refine ⟨st, _, e1, e11, ?_⟩
    intro q t hq hxq
    obtain ⟨hr1, hr2⟩ := hid q
    have hmask : totalVocabSize + 1 ≠ 0 := by omega
    have hrid : g.random_id_dist_ q ≠ 0 := by omega
    have hx2 : ex1.x[q]? = some (corruptTok g (totalVocabSize + 1) t q) := by
      rw [e9 q, if_pos hq, hxq]; rfl
    show (_ → ex1.x[q]? = _) ∧ (_ → _ → ex1.x[q]? = _ ∧ _) ∧ (_ → _ → ex1.x[q]? = _) ∧ _
    rw [hx2]
    by_cases hp : 4 / 5 < g.p q
    · have hnle : ¬ g.p q ≤ 4 / 5 := not_le.mpr hp
      by_cases hp2 : g.p2 q ≤ 1 / 2
      · have hnlt : ¬ 1 / 2 < g.p2 q := not_lt.mpr hp2
        have htr : toReplace (g.p q) (g.p2 q) (g.random_id_dist_ q) (totalVocabSize + 1) =
            g.random_id_dist_ q := by
          unfold toReplace; rw [p_mask_eq, p_half_eq, if_pos hp, if_pos hp2]
        have hct : corruptTok g (totalVocabSize + 1) t q = g.random_id_dist_ q := by
          unfold corruptTok; rw [htr, if_pos hrid]
        rw [hct, htr]
        exact ⟨fun h => absurd h hnle, fun _ _ => ⟨rfl, hr1, hr2⟩, fun _ h => absurd h hnlt,
          fun h => absurd h hrid, fun h => absurd h.2 hnlt⟩
      · have hlt : 1 / 2 < g.p2 q := not_le.mp hp2
        have htr : toReplace (g.p q) (g.p2 q) (g.random_id_dist_ q) (totalVocabSize + 1) =
            0 := by
          unfold toReplace; rw [p_mask_eq, p_half_eq, if_pos hp, if_neg hp2]
        have hct : corruptTok g (totalVocabSize + 1) t q = t := by
          unfold corruptTok; rw [htr, if_neg (fun h => h rfl)]
        rw [hct, htr]
        exact ⟨fun h => absurd h hnle, fun _ h => absurd h hp2, fun _ _ => rfl,
          fun _ => ⟨hp, hlt⟩, fun _ => rfl⟩
    · have hle : g.p q ≤ 4 / 5 := not_lt.mp hp
      have htr : toReplace (g.p q) (g.p2 q) (g.random_id_dist_ q) (totalVocabSize + 1) =
          totalVocabSize + 1 := by
        unfold toReplace; rw [p_mask_eq, if_neg hp]
      have hct : corruptTok g (totalVocabSize + 1) t q = totalVocabSize + 1 := by
        unfold corruptTok; rw [htr, if_pos hmask]
      rw [hct, htr]
      exact ⟨fun _ => rfl, fun h => absurd h hp, fun h => absurd h hp,
        fun h => absurd h hmask, fun h => absurd h.1 hp⟩
  · intro r m; unfold toReplace; rw [p_mask_eq, p_half_eq]; norm_num
  · intro r m; unfold toReplace; rw [p_mask_eq, p_half_eq]; norm_num
  · intro p2 r m; unfold toReplace; rw [p_mask_eq]; norm_num

theorem idDrawsOk_genW : IdDrawsOk genW 100 := by
  intro q
  show (1 : Int) ≤ 7 ∧ (7 : Int) ≤ 100 - 1
  decide

/-- Witness of C6 on a sequence of eight tokens. -/
theorem C6_policy_witness :
    SpanDrawsOk genW ∧ ShuffleOk id ∧ (0 : Int) ≤ 8 ∧ (8 : Int) ≤ exW.x.length ∧
    exW.target = [] ∧ exW.indexies = [] ∧ IdDrawsOk genW 100 ∧
    ∃ ex2, _mask_seq genW id (100 + 1) 102 100 8 exW = .ok (true, ex2) :=
  ⟨spanDrawsOk_genW, shuffleOk_id, by decide, by decide, rfl, rfl, idDrawsOk_genW, by
    obtain ⟨⟨_, ex2, _, h2, _⟩, _⟩ := C6_policy genW id 102 100 8 exW
      spanDrawsOk_genW shuffleOk_id (by decide) (by decide) rfl rfl idDrawsOk_genW
    exact ⟨ex2, h2⟩⟩

theorem restore_spec (f : Nat → Int) : ∀ (L : List Nat) (xs : List Int),
    (∀ q ∈ L, q < xs.length) →
    (restore xs (L.map Int.ofNat) (L.map f)).length = xs.length ∧
    ∀ q : Nat, (restore xs (L.map Int.ofNat) (L.map f))[q]? =
      if q ∈ L then some (f q) else xs[q]? := by
  intro L
  induction L with
  | nil => intro xs _; simp [restore]
  | cons p L ih =>
    intro xs h
    have hp : p < xs.length := h p (List.mem_cons_self _ _)
    have hL : ∀ q ∈ L, q < (xs.set p (f p)).length := by
      intro q hq; rw [List.length_set]; exact h q (List.mem_cons_of_mem _ hq)
    obtain ⟨ih1, ih2⟩ := ih (xs.set p (f p)) hL
    have hto : (Int.ofNat p).toNat = p := rfl
    simp only [List.map_cons, restore, hto]
    refine ⟨by rw [ih1, List.length_set], ?_⟩
    intro q
    rw [ih2 q]
    by_cases hq : q ∈ L
    · simp [hq]
    · by_cases hqp : q = p
      · subst hqp
        simp [hq, hp]
      · simp [hq, hqp, List.getElem?_set_ne (Ne.symm hqp)]

theorem pairwise_maskedIn (masked : List Bool) (i n : Nat) :
    (maskedIn masked i n).Pairwise (fun a b => a < b) :=
  List.Pairwise.filter _ (List.pairwise_lt_range' i n)

/-- C7: round trip. If `n` positions were masked, writing `targetIds[j]` back into the output
tokens at `targetPositions[j]` for every `j < n` gives back exactly the token sequence that
was passed to `_mask_seq`; each recorded target is the token its position held on entry. -/
theorem C7_round_trip (g : Gen) (shuffle : List Int → List Int)
    (maskId sepId totalVocabSize len : Int) (ex : Ex)
    (hg : SpanDrawsOk g) (hs : ShuffleOk shuffle) (h0 : 0 ≤ len) (hx : len ≤ ex.x.length)
    (ht : ex.target = []) (hi : ex.indexies = []) :
    ∃ st ex2, selectSpans g shuffle sepId len ex.x = .ok st ∧
      _mask_seq g shuffle maskId sepId totalVocabSize len ex = .ok (true, ex2) ∧
      restore ex2.x (ex2.indexies.take (st.masked.count true))
        (ex2.target.take (st.masked.count true)) = ex.x ∧
      ∀ j : Nat, j < st.masked.count true →
        ∃ p : Nat, ex2.indexies[j]? = some (p : Int) ∧ st.masked[p]? = some true ∧
          ex2.target[j]? = ex.x[p]? := by
  obtain ⟨st, ex1, e1, e2, _, _, _, e6, e7, e8, e9, e10, e11⟩ :=
    mask_seq_spec g shuffle maskId sepId totalVocabSize len ex hg hs h0 hx ht hi
  have hlen : st.masked.length = len.toNat := by have := e2.len_eq; omega
  have hmem : ∀ q, q ∈ maskedIn st.masked 0 len.toNat ↔ st.masked[q]? = some true := by
    intro q
    rw [mem_maskedIn]
    constructor
    · intro h; exact h.2.2
    · intro h
      obtain ⟨hq, _⟩ := List.getElem?_eq_some.mp h
      exact ⟨by omega, by omega, h⟩
  have hlt : ∀ q ∈ maskedIn st.masked 0 len.toNat, q < ex.x.length := by
    intro q hq
    obtain ⟨hq1, _⟩ := List.getElem?_eq_some.mp ((hmem q).mp hq)
    omega
  refine ⟨st, _, e1, e11, ?_, ?_⟩
  · show restore ex1.x (List.take _ (ex1.indexies ++ _)) (List.take _ (ex1.target ++ _)) = ex.x
    rw [List.take_left' (by rw [e6, List.length_map, e10]),
      List.take_left' (by rw [e7, List.length_map, e10]), e6, e7]
    obtain ⟨_, r2⟩ := restore_spec (fun q => ex.x[q]?.getD 0) (maskedIn st.masked 0 len.toNat)
      ex1.x (by intro q hq; rw [e8]; exact hlt q hq)
    apply List.ext_getElem?
    intro q
    rw [r2 q]
    by_cases hq : q ∈ maskedIn st.masked 0 len.toNat
    · rw [if_pos hq, List.getElem?_eq_getElem (hlt q hq)]; rfl
    · rw [if_neg hq, e9 q, if_neg (fun h => hq ((hmem q).mpr h))]
  · intro j hj
    have hj2 : j < (maskedIn st.masked 0 len.toNat).length := by omega
    refine ⟨(maskedIn st.masked 0 len.toNat)[j], ?_, ?_, ?_⟩
    · show (ex1.indexies ++ _)[j]? = _
      rw [List.getElem?_append_left (by rw [e6, List.length_map]; exact hj2), e6,
        List.getElem?_map, List.getElem?_eq_getElem hj2]
      rfl
    · exact (hmem _).mp (List.getElem_mem hj2)
    · show (ex1.target ++ _)[j]? = _
      rw [List.getElem?_append_left (by rw [e7, List.length_map]; exact hj2), e7,
        List.getElem?_map, List.getElem?_eq_getElem hj2,
        List.getElem?_eq_getElem (hlt _ (List.getElem_mem hj2))]
      simp [List.getElem?_eq_getElem (hlt _ (List.getElem_mem hj2))]

/-- Witness of C7 on a sequence of eight tokens. -/
theorem C7_round_trip_witness :
    SpanDrawsOk genW ∧ ShuffleOk id ∧ (0 : Int) ≤ 8 ∧ (8 : Int) ≤ exW.x.length ∧
    exW.target = [] ∧ exW.indexies = [] ∧
    ∃ st ex2, selectSpans genW id 102 8 exW.x = .ok st ∧
      _mask_seq genW id 101 102 100 8 exW = .ok (true, ex2) ∧
      restore ex2.x (ex2.indexies.take (st.masked.count true))
        (ex2.target.take (st.masked.count true)) = exW.x :=
  ⟨spanDrawsOk_genW, shuffleOk_id, by decide, by decide, rfl, rfl, by
    obtain ⟨st, ex2, h1, h2, h3, _⟩ := C7_round_trip genW id 101 102 100 8 exW
      spanDrawsOk_genW shuffleOk_id (by decide) (by decide) rfl rfl
    exact ⟨st, ex2, h1, h2, h3⟩⟩

/-- C8: the non-pad prefix of `targetPositions` is strictly increasing and lists exactly the
masked positions, each once; it is the ascending list of the flagged positions, a function of
the final vector `masked` alone, whatever the order in which the spans were accepted; and
`targetIds` is aligned with it entry by entry (the token each position held on entry). -/
theorem C8_ascending (g : Gen) (shuffle : List Int → List Int)
    (maskId sepId totalVocabSize len : Int) (ex : Ex)
    (hg : SpanDrawsOk g) (hs : ShuffleOk shuffle) (h0 : 0 ≤ len) (hx : len ≤ ex.x.length)
    (ht : ex.target = []) (hi : ex.indexies = []) :
    ∃ st ex2, selectSpans g shuffle sepId len ex.x = .ok st ∧
      _mask_seq g shuffle maskId sepId totalVocabSize len ex = .ok (true, ex2) ∧
      (ex2.indexies.take (st.masked.count true)).Pairwise (fun a b => a < b) ∧
      (∀ q : Nat, (q : Int) ∈ ex2.indexies.take (st.masked.count true) ↔
        st.masked[q]? = some true) ∧
      (∀ p ∈ ex2.indexies.take (st.masked.count true), 0 ≤ p) ∧
      ex2.indexies.take (st.masked.count true) =
        (maskedIn st.masked 0 st.masked.length).map Int.ofNat ∧
      ex2.target.take (st.masked.count true) =
        (ex2.indexies.take (st.masked.count true)).map (fun p => ex.x[p.toNat]?.getD 0) := by
  obtain ⟨st, ex1, e1, e2, _, _, _, e6, e7, _, _, e10, e11⟩ :=
    mask_seq_spec g shuffle maskId sepId totalVocabSize len ex hg hs h0 hx ht hi
  have hlen : st.masked.length = len.toNat := by have := e2.len_eq; omega
  have hmem : ∀ q, q ∈ maskedIn st.masked 0 len.toNat ↔ st.masked[q]? = some true := by
    intro q
    rw [mem_maskedIn]
    constructor
    · intro h; exact h.2.2
    · intro h
      obtain ⟨hq, _⟩ := List.getElem?_eq_some.mp h
      exact ⟨by omega, by omega, h⟩
  have hidx : List.take (st.masked.count true)
      (ex1.indexies ++ List.replicate (28 - st.masked.count true) 0) =
      (maskedIn st.masked 0 len.toNat).map Int.ofNat := by
    rw [List.take_left' (by rw [e6, List.length_map, e10]), e6]
  have htgt : List.take (st.masked.count true)
      (ex1.target ++ List.replicate (28 - st.masked.count true) 0) =
      (maskedIn st.masked 0 len.toNat).map (fun q => ex.x[q]?.getD 0) := by
    rw [List.take_left' (by rw [e7, List.length_map, e10]), e7]
  refine ⟨st, _, e1, e11, ?_, ?_, ?_, ?_, ?_⟩
  · show (List.take _ (ex1.indexies ++ _)).Pairwise _
    rw [hidx]
    exact List.Pairwise.map _ (fun a b hab => by
      show (a : Int) < (b : Int)
      exact_mod_cast hab) (pairwise_maskedIn st.masked 0 len.toNat)
  · intro q
    show (q : Int) ∈ List.take _ (ex1.indexies ++ _) ↔ _
    rw [hidx, List.mem_map, ← hmem q]
    constructor
    · rintro ⟨a, ha, hae⟩
      have : a = q := Int.ofNat.inj hae
      rwa [← this]
    · intro h; exact ⟨q, h, rfl⟩
  · intro p hp
    change p ∈ List.take _ (ex1.indexies ++ _) at hp
    rw [hidx, List.mem_map] at hp
    obtain ⟨a, _, rfl⟩ := hp
    exact Int.ofNat_nonneg a
  · show List.take _ (ex1.indexies ++ _) = _
    rw [hidx, hlen]
  · show List.take _ (ex1.target ++ _) = List.map _ (List.take _ (ex1.indexies ++ _))
    rw [hidx, htgt, List.map_map]
    rfl

/-- Witness of C8 on a sequence of eight tokens. -/
theorem C8_ascending_witness :
    SpanDrawsOk genW ∧ ShuffleOk id ∧ (0 : Int) ≤ 8 ∧ (8 : Int) ≤ exW.x.length ∧
    exW.target = [] ∧ exW.indexies = [] ∧
    ∃ st ex2, selectSpans genW id 102 8 exW.x = .ok st ∧
      _mask_seq genW id 101 102 100 8 exW = .ok (true, ex2) ∧
      (ex2.indexies.take (st.masked.count true)).Pairwise (fun a b => a < b) :=
  ⟨spanDrawsOk_genW, shuffleOk_id, by decide, by decide, rfl, rfl, by
    obtain ⟨st, ex2, h1, h2, h3, _⟩ := C8_ascending genW id 101 102 100 8 exW
      spanDrawsOk_genW shuffleOk_id (by decide) (by decide) rfl rfl
    exact ⟨st, ex2, h1, h2, h3⟩⟩

theorem getElem?_layout (a s : Int) (F S Z : List Int) :
    ([a] ++ F ++ [s] ++ S ++ Z)[0]? = some a ∧
    ([a] ++ F ++ [s] ++ S ++ Z)[1 + F.length]? = some s ∧
    ∀ (q : Nat) (t : Int), ([a] ++ F ++ [s] ++ S ++ Z)[q]? = some t →
      (q = 0 ∧ t = a) ∨ (q = 1 + F.length ∧ t = s) ∨
      (q ≠ 0 ∧ q ≠ 1 + F.length ∧ (t ∈ F ∨ t ∈ S ∨ t ∈ Z)) := by
  refine ⟨by simp, ?_, ?_⟩
  · rw [List.append_assoc, List.append_assoc, List.getElem?_append_right (by simp; omega)]
    have e : 1 + F.length - ([a] ++ F).length = 0 := by simp; omega
    rw [e]
    simp
  · intro q t h
    rw [List.append_assoc, List.append_assoc, List.append_assoc, List.getElem?_append] at h
    by_cases h0 : q < [a].length
    · rw [if_pos h0] at h
      have hq : q = 0 := by simpa using h0
      subst hq
      left
      exact ⟨rfl, by simpa using h.symm⟩
    · rw [if_neg h0, List.getElem?_append] at h
      have hq0 : q ≠ 0 := by simpa using h0
      simp only [List.length_singleton] at h
      by_cases h1 : q - 1 < F.length
      · rw [if_pos h1] at h
        right; right
        exact ⟨hq0, by omega, Or.inl (List.getElem?_mem h)⟩
      · rw [if_neg h1, List.getElem?_append] at h
        by_cases h2 : q - 1 - F.length < [s].length
        · rw [if_pos h2] at h
          have hq : q - 1 - F.length = 0 := by simpa using h2
          rw [hq] at h
          right; left
          exact ⟨by omega, by simpa using h.symm⟩
        · rw [if_neg h2, List.getElem?_append] at h
          have hq : q ≠ 1 + F.length := by
            simp only [List.length_singleton] at h2; omega
          right; right
          refine ⟨hq0, hq, ?_⟩
          split at h
          · exact Or.inr (Or.inl (List.getElem?_mem h))
          · exact Or.inr (Or.inr (List.getElem?_mem h))

theorem getElem?_types (a b c : Nat) :
    ([0] ++ List.replicate a (1 : Int) ++ List.replicate b 2 ++ List.replicate c 0)[0]? = some 0 ∧
    (∀ t ∈ [0] ++ List.replicate a (1 : Int) ++ List.replicate b 2 ++ List.replicate c 0,
      t = 0 ∨ t = 1 ∨ t = 2) ∧
    ∀ i j : Nat,
      ([0] ++ List.replicate a (1 : Int) ++ List.replicate b 2 ++ List.replicate c 0)[i]? = some 1 →
      ([0] ++ List.replicate a (1 : Int) ++ List.replicate b 2 ++ List.replicate c 0)[j]? = some 2 →
      i < j := by
  refine ⟨by simp, ?_, ?_⟩
  · intro t ht
    simp only [List.mem_append, List.mem_singleton, List.mem_replicate] at ht
    omega
  · intro i j hi hj
    have key : ∀ (q : Nat) (t : Int),
        ([0] ++ List.replicate a (1 : Int) ++ List.replicate b 2 ++ List.replicate c 0)[q]? =
          some t → (t = 1 → 1 ≤ q ∧ q < 1 + a) ∧ (t = 2 → 1 + a ≤ q) := by
      intro q t h
      simp only [List.getElem?_append, List.getElem?_replicate, List.length_append,
        List.length_singleton, List.length_replicate] at h
      split at h
      · split at h
        · split at h
          · have hq : q = 0 := by omega
            subst hq
            simp at h
            omega
          · split at h
            · have := (Option.some.inj h).symm; omega
            · exact absurd h (by simp)
        · split at h
          · have := (Option.some.inj h).symm; omega
          · exact absurd h (by simp)
      · split at h
        · have := (Option.some.inj h).symm; omega
        · exact absurd h (by simp)
    have h1 := (key i 1 hi).1 rfl
    have h2 := (key j 2 hj).2 rfl
    omega

/-- C9: for `thirdthLen >= 5` and draws in their supports, whatever the order label,
`ParseOne` succeeds and the segment types it emits are
`[0] ++ 1^(|first| + 1) ++ 2^(|second|) ++ 0...` (the SEP slot is typed 1): every value is
0, 1 or 2, `segmentTypes[0] = 0`, and every index of type 1 is below every index of type 2. -/
theorem C9_types (g : Gen) (shuffle : List Int → List Int) (ids : List Int)
    (totalVocabSize : Int) (example_ : LlbExample)
    (h5 : 5 ≤ thirdthLen ids.length g.ranoff_p) (hs : SplitOk g ids.length)
    (hg : SpanDrawsOk g) (hsh : ShuffleOk shuffle) :
    ∃ toks idx tgt types,
      ParseOne g shuffle ids totalVocabSize example_ =
        .ok (true,
          { features := example_.features ++
              [Tensor.ofInts toks, Tensor.ofInts idx, Tensor.ofInts types,
               Tensor.ofInt (orderLabel g)],
            target := Tensor.ofInts tgt }) ∧
      (orderLabel g = 1 ∨ orderLabel g = 0) ∧
      types = [0] ++ List.replicate ((firstSeg g ids).length + 1) 1 ++
        List.replicate (secondSeg g ids).length 2 ++
        List.replicate (200 - (emittedLen g ids).toNat) 0 ∧
      (types.length : Int) = kMaxLen + 1 ∧
      (∀ t ∈ types, t = 0 ∨ t = 1 ∨ t = 2) ∧
      types[0]? = some 0 ∧
      ∀ i j : Nat, types[i]? = some 1 → types[j]? = some 2 → i < j := by
  obtain ⟨st, ex1, _, _, _, _, _, _, e7⟩ :=
    ParseOne_spec g shuffle ids totalVocabSize example_ h5 hs hg hsh
  obtain ⟨t1, t2, t3⟩ := getElem?_types ((firstSeg g ids).length + 1) (secondSeg g ids).length
    (200 - (emittedLen g ids).toNat)
  refine ⟨_, _, _, _, e7, ?_, rfl, ?_, t2, t1, t3⟩
  · unfold orderLabel; split <;> simp
  · have hx := length_assembled_x g ids totalVocabSize hs
    unfold assembled at hx ⊢
    simp only [List.length_append, List.length_replicate, List.length_singleton] at hx ⊢
    unfold kMaxLen
    omega

/-- Witness of C9 on thirty tokens. -/
theorem C9_types_witness :
    5 ≤ thirdthLen idsW.length genW.ranoff_p ∧ SplitOk genW idsW.length ∧
    SpanDrawsOk genW ∧ ShuffleOk id ∧
    ∃ toks idx tgt types,
      ParseOne genW id idsW 100 ⟨[], .undefined⟩ =
        .ok (true,
          { features := [Tensor.ofInts toks, Tensor.ofInts idx, Tensor.ofInts types,
               Tensor.ofInt (orderLabel genW)],
            target := Tensor.ofInts tgt }) ∧
      types[0]? = some 0 :=
  ⟨by decide, splitOk_genW, spanDrawsOk_genW, shuffleOk_id, by
    obtain ⟨toks, idx, tgt, types, h1, _, _, _, _, h6, _⟩ :=
      C9_types genW id idsW 100 ⟨[], .undefined⟩ (by decide) splitOk_genW spanDrawsOk_genW
        shuffleOk_id
    exact ⟨toks, idx, tgt, types, h1, h6⟩⟩

theorem corruptTok_cases (g : Gen) (maskId t q : Int) :
    corruptTok g maskId t q = maskId ∨ corruptTok g maskId t q = g.random_id_dist_ q ∨
      corruptTok g maskId t q = t := by
  unfold corruptTok toReplace
  split_ifs <;> simp_all

theorem mem_segs (g : Gen) (ids : List Int) :
    (∀ t ∈ firstSeg g ids, t ∈ ids) ∧ (∀ t ∈ secondSeg g ids, t ∈ ids) := by
  have hA : ∀ off mid t, t ∈ segA ids off mid → t ∈ ids := fun _ _ _ h =>
    List.mem_of_mem_drop (List.mem_of_mem_take h)
  have hB : ∀ mid e t, t ∈ segB ids mid e → t ∈ ids := fun _ _ _ h =>
    List.mem_of_mem_drop (List.mem_of_mem_take h)
  unfold firstSeg secondSeg
  constructor <;> intro t ht <;> split at ht
  · exact hA _ _ t ht
  · exact hB _ _ t ht
  · exact hB _ _ t ht
  · exact hA _ _ t ht

theorem assembled_markers (g : Gen) (ids : List Int) (totalVocabSize : Int)
    (hv : 1 ≤ totalVocabSize) (hids : ∀ t ∈ ids, 0 ≤ t ∧ t < totalVocabSize) :
    (∀ q : Nat, (assembled g ids totalVocabSize).x[q]? = some (totalVocabSize + 2) ↔
      q = 1 + (firstSeg g ids).length) ∧
    (∀ q : Nat, (assembled g ids totalVocabSize).x[q]? = some totalVocabSize ↔ q = 0) := by
  obtain ⟨l1, l2, l3⟩ := getElem?_layout totalVocabSize (totalVocabSize + 2) (firstSeg g ids)
    (secondSeg g ids) (List.replicate (200 - (emittedLen g ids).toNat) 0)
  obtain ⟨m1, m2⟩ := mem_segs g ids
  have hrest : ∀ t, (t ∈ firstSeg g ids ∨ t ∈ secondSeg g ids ∨
      t ∈ List.replicate (200 - (emittedLen g ids).toNat) (0 : Int)) →
      0 ≤ t ∧ t < totalVocabSize := by
    intro t ht
    rcases ht with h | h | h
    · exact hids t (m1 t h)
    · exact hids t (m2 t h)
    · have := (List.mem_replicate.mp h).2
      omega
  constructor
  · intro q
    constructor
    · intro h
      rcases l3 q _ h with ⟨_, h2⟩ | ⟨h1, _⟩ | ⟨_, _, h3⟩
      · omega
      · exact h1
      · have := hrest _ h3; omega
    · intro h; rw [h]; exact l2
  · intro q
    constructor
    · intro h
      rcases l3 q _ h with ⟨h1, _⟩ | ⟨_, h2⟩ | ⟨_, _, h3⟩
      · exact h1
      · omega
      · have := hrest _ h3; omega
    · intro h; rw [h]; exact l1

/-- C10: for `thirdthLen >= 5`, draws in their supports and encoder ids in
`[0, totalVocabSize)`, `ParseOne` succeeds and its final token sequence holds
CLS `= totalVocabSize` at position 0 and nowhere else, and SEP `= totalVocabSize + 2` at
exactly one position, `1 + |first segment|`; a position holds CLS (SEP) after the corruption
if and only if it held it before, so the corruption neither overwrites nor creates one. -/
theorem C10_markers (g : Gen) (shuffle : List Int → List Int) (ids : List Int)
    (totalVocabSize : Int) (example_ : LlbExample)
    (h5 : 5 ≤ thirdthLen ids.length g.ranoff_p) (hs : SplitOk g ids.length)
    (hg : SpanDrawsOk g) (hsh : ShuffleOk shuffle) (hid : IdDrawsOk g totalVocabSize)
    (hids : ∀ t ∈ ids, 0 ≤ t ∧ t < totalVocabSize) :
    ∃ toks idx tgt types,
      ParseOne g shuffle ids totalVocabSize example_ =
        .ok (true,
          { features := example_.features ++
              [Tensor.ofInts toks, Tensor.ofInts idx, Tensor.ofInts types,
               Tensor.ofInt (orderLabel g)],
            target := Tensor.ofInts tgt }) ∧
      toks[0]? = some totalVocabSize ∧
      (∀ q : Nat, toks[q]? = some totalVocabSize ↔ q = 0) ∧
      (∀ q : Nat, toks[q]? = some (totalVocabSize + 2) ↔ q = 1 + (firstSeg g ids).length) ∧
      (∀ q : Nat, toks[q]? = some totalVocabSize ↔
        (assembled g ids totalVocabSize).x[q]? = some totalVocabSize) ∧
      (∀ q : Nat, toks[q]? = some (totalVocabSize + 2) ↔
        (assembled g ids totalVocabSize).x[q]? = some (totalVocabSize + 2)) := by
  obtain ⟨st, ex1, _, e2, _, _, _, e6, e7⟩ :=
    ParseOne_spec g shuffle ids totalVocabSize example_ h5 hs hg hsh
  have hv : 2 ≤ totalVocabSize := by have := hid 0; omega
  obtain ⟨a1, a2⟩ := assembled_markers g ids totalVocabSize (by omega) hids
  have hcls : ∀ q : Nat, ex1.x[q]? = some totalVocabSize ↔
      (assembled g ids totalVocabSize).x[q]? = some totalVocabSize := by
    intro q
    rw [e6 q]
    by_cases hm : st.masked[q]? = some true
    · rw [if_pos hm]
      obtain ⟨hq1, t, ht, hne⟩ := e2.pos q hm
      have hq0 : ¬ q = 0 := by omega
      have hr := hid q
      rw [ht]
      simp only [Option.map_some', Option.some.injEq]
      have htv : t ≠ totalVocabSize := fun h => hq0 ((a2 q).mp (by rw [ht, h]))
      rcases corruptTok_cases g (totalVocabSize + 1) t q with h | h | h <;> rw [h] <;>
        constructor <;> intro h' <;> omega
    · rw [if_neg hm]
  have hsep : ∀ q : Nat, ex1.x[q]? = some (totalVocabSize + 2) ↔
      (assembled g ids totalVocabSize).x[q]? = some (totalVocabSize + 2) := by
    intro q
    rw [e6 q]
    by_cases hm : st.masked[q]? = some true
    · rw [if_pos hm]
      obtain ⟨_, t, ht, hne⟩ := e2.pos q hm
      have hr := hid q
      rw [ht]
      simp only [Option.map_some', Option.some.injEq]
      rcases corruptTok_cases g (totalVocabSize + 1) t q with h | h | h <;> rw [h] <;>
        constructor <;> intro h' <;> omega
    · rw [if_neg hm]
  refine ⟨_, _, _, _, e7, (hcls 0).mpr ((a2 0).mpr rfl), ?_, ?_, hcls, hsep⟩
  · intro q; rw [hcls q]; exact a2 q
  · intro q; rw [hsep q]; exact a1 q

theorem mem_idsW : ∀ t ∈ idsW, 0 ≤ t ∧ t < 100 := by decide

/-- Witness of C10 on thirty tokens. -/
theorem C10_markers_witness :
    5 ≤ thirdthLen idsW.length genW.ranoff_p ∧ SplitOk genW idsW.length ∧
    SpanDrawsOk genW ∧ ShuffleOk id ∧ IdDrawsOk genW 100 ∧
    (∀ t ∈ idsW, 0 ≤ t ∧ t < 100) ∧
    ∃ toks idx tgt types,
      ParseOne genW id idsW 100 ⟨[], .undefined⟩ =
        .ok (true,
          { features := [Tensor.ofInts toks, Tensor.ofInts idx, Tensor.ofInts types,
               Tensor.ofInt (orderLabel genW)],
            target := Tensor.ofInts tgt }) ∧
      toks[0]? = some 100 :=
  ⟨by decide, splitOk_genW, spanDrawsOk_genW, shuffleOk_id, idDrawsOk_genW, mem_idsW, by
    obtain ⟨toks, idx, tgt, types, h1, h2, _⟩ :=
      C10_markers genW id idsW 100 ⟨[], .undefined⟩ (by decide) splitOk_genW spanDrawsOk_genW
        shuffleOk_id idDrawsOk_genW mem_idsW
    exact ⟨toks, idx, tgt, types, h1, h2⟩⟩

theorem libraryDraws_iff (g : Gen) (total : Int) (h : 2 ≤ thirdthLen total 0) :
    LibraryDraws g total ↔
      discreteSupport (discreteWeights 0 3) g.ranoff_p ∧
      discreteSupport (discreteWeights (thirdthLen total 0) (2 * thirdthLen total 0 - 1))
        g.ranmid_p := by
  unfold LibraryDraws discreteSupport discreteWeights
  simp only [List.length_replicate]
  rw [if_pos (by decide), if_neg (by omega)]
  constructor
  · rintro ⟨h1, h2, h3⟩; exact ⟨h1, h2, by omega⟩
  · rintro ⟨h1, h2, h3⟩; exact ⟨h1, h2, by omega⟩

theorem library_mid_lt (g : Gen) (ids : List Int) (h : LibraryDraws g ids.length) :
    g.ranmid_p < g.ranoff_p + thirdthLen ids.length g.ranoff_p ∧
    ((segA ids g.ranoff_p g.ranmid_p).length : Int) < thirdthLen ids.length g.ranoff_p := by
  obtain ⟨h0, h1, h2⟩ := h
  rw [h0]
  refine ⟨by omega, ?_⟩
  unfold segA
  rw [List.length_take, List.length_drop]
  omega

set_option maxRecDepth 100000

/-- C11: on thirty tokens the midpoint draw 0 is one that `ranmid_p` returns
(`thirdthLen = 10`, ten equal weights), it is below `off + thirdthLen = 10`, segment A is
empty and the tokens start `[CLS] [SEP]`; and for every draw of the two distributions the
midpoint is below `off + thirdthLen`, never in `[off + thirdthLen, off + 2*thirdthLen - 1]`,
and segment A has fewer than `thirdthLen` tokens. -/
theorem C11_mid_below_range :
    thirdthLen idsW.length genM.ranoff_p = 10 ∧
    discreteSupport (discreteWeights 0 3) genM.ranoff_p ∧
    discreteSupport (discreteWeights 10 (2 * 10 - 1)) genM.ranmid_p ∧
    LibraryDraws genM idsW.length ∧
    ¬ (genM.ranoff_p + thirdthLen idsW.length genM.ranoff_p ≤ genM.ranmid_p) ∧
    segA idsW genM.ranoff_p genM.ranmid_p = [] ∧
    (assemble genM idsW 100).map (fun r => r.map (fun e => (e.1.x.take 4, e.1.types.take 4))) =
      .ok (some ([100, 102, 2, 3], [0, 1, 2, 2])) ∧
    (∀ (g : Gen) (ids : List Int), LibraryDraws g ids.length →
      g.ranmid_p < g.ranoff_p + thirdthLen ids.length g.ranoff_p ∧
      ((segA ids g.ranoff_p g.ranmid_p).length : Int) < thirdthLen ids.length g.ranoff_p) := by
  refine ⟨by decide, ?_, ?_, ?_, by decide, by decide, by decide, library_mid_lt⟩
  · unfold discreteSupport discreteWeights; decide
  · unfold discreteSupport discreteWeights; decide
  · unfold LibraryDraws; decide

theorem mem_pushOffs (len : Int) : ∀ (fuel : Nat) (i p : Int), 0 ≤ i → i % 4 = 0 →
    len - i ≤ 4 * fuel → (p ∈ pushOffs len fuel i ↔ i ≤ p ∧ p < len ∧ p % 4 = 0) := by
  intro fuel
  induction fuel with
  | zero =>
    intro i p _ _ h
    simp only [pushOffs, List.not_mem_nil, false_iff]
    omega
  | succ n ih =>
    intro i p h0 h4 h
    unfold pushOffs
    by_cases hlt : i < len
    · rw [if_pos hlt, List.mem_cons, ih (i + 4) p (by omega) (by omega) (by push_cast at h; omega)]
      omega
    · rw [if_neg hlt]
      simp only [List.not_mem_nil, false_iff]
      omega

theorem mem_initOffs (len p : Int) : p ∈ initOffs len ↔ 0 ≤ p ∧ p < len ∧ p % 4 = 0 :=
  mem_pushOffs len len.toNat 0 p (le_refl 0) (by decide) (by omega)

theorem spanLoop_starts (g : Gen) (sepId len : Int) (x : List Int) :
    ∀ (cands : List Int) (it : Nat) (st st1 : SpanState),
      spanLoop g sepId len x cands it st = .ok st1 →
      ∀ s ∈ st1.accepted, s ∈ st.accepted ∨
        ∃ c ∈ cands, ∃ j : Nat, s = (spanStart g c j, g.len_dist_ j + 1) := by
  intro cands
  induction cands with
  | nil =>
    intro it st st1 h s hs
    simp only [spanLoop, Except.ok.injEq] at h
    subst h
    exact Or.inl hs
  | cons p rest ih =>
    intro it st st1 h s hs
    have lift : (s ∈ st.accepted ∨
        ∃ c ∈ rest, ∃ j : Nat, s = (spanStart g c j, g.len_dist_ j + 1)) →
        s ∈ st.accepted ∨
        ∃ c ∈ p :: rest, ∃ j : Nat, s = (spanStart g c j, g.len_dist_ j + 1) := by
      rintro (h1 | ⟨c, hc, j, hj⟩)
      · exact Or.inl h1
      · exact Or.inr ⟨c, List.mem_cons_of_mem _ hc, j, hj⟩
    unfold spanLoop at h
    simp only at h
    split at h
    · simp only [Except.ok.injEq] at h; subst h; exact Or.inl hs
    · split at h
      · exact lift (ih _ _ _ h s hs)
      · split at h
        · exact lift (ih _ _ _ h s hs)
        · cases hv : spanValid sepId len st.masked x (p * 4 + g.off_dist it)
              (g.len_dist_ it + 1).toNat 0 with
          | error e => rw [hv] at h; simp [bind, Except.bind] at h
          | ok b =>
            rw [hv] at h
            simp only [bind, Except.bind] at h
            cases b with
            | false => exact lift (ih _ _ _ (by simpa using h) s hs)
            | true =>
              simp only [if_true] at h
              cases hm : markSpan (p * 4 + g.off_dist it) (g.len_dist_ it + 1).toNat 0
                  st.masked with
              | error e => rw [hm] at h; simp at h
              | ok m =>
                rw [hm] at h
                simp only at h
                rcases ih _ _ _ h s hs with h1 | h1
                · simp only [List.mem_append, List.mem_singleton] at h1
                  rcases h1 with h1 | h1
                  · exact Or.inl h1
                  · exact Or.inr ⟨p, List.mem_cons_self _ _, it, h1⟩
                · exact lift (Or.inr h1)

theorem selectSpans_starts (g : Gen) (shuffle : List Int → List Int) (sepId len : Int)
    (x : List Int) (hs : ShuffleOk shuffle) (st : SpanState)
    (h : selectSpans g shuffle sepId len x = .ok st) :
    ∀ s ∈ st.accepted, ∃ c : Int, 0 ≤ c ∧ c < len ∧ c % 4 = 0 ∧
      ∃ j : Nat, s.1 = 4 * c + g.off_dist j ∧ s.2 = g.len_dist_ j + 1 := by
  intro s hsm
  unfold selectSpans spanInit at h
  split at h
  · simp [bind, Except.bind] at h
  · simp only [bind, Except.bind] at h
    rcases spanLoop_starts g sepId len x _ _ _ _ h s hsm with h1 | ⟨c, hc, j, hj⟩
    · simp at h1
    · have hc2 := (mem_initOffs len c).mp ((hs (initOffs len)).mem_iff.mp hc)
      refine ⟨c, hc2.1, hc2.2.1, hc2.2.2, j, ?_, ?_⟩
      · rw [hj]; unfold spanStart; simp only; omega
      · rw [hj]

theorem shuffleOk_reverse : ShuffleOk List.reverse := fun l => List.reverse_perm l

theorem spanDrawsOk_genD : SpanDrawsOk genD := by
  intro it
  by_cases h : it = 0
  · subst h; decide
  · show (0 : Int) ≤ (if it = 0 then 0 else 1) ∧ (if it = 0 then (0 : Int) else 1) ≤ 2 ∧
      (0 : Int) ≤ 1 ∧ (1 : Int) ≤ 5 - ((if it = 0 then 0 else 1) + 1)
    rw [if_neg h]
    decide

/-- C12: on a sequence of 21 tokens the candidates are `0, 4, 8, 12, 16, 20`, but the span
start tested for the candidate 4 (drawn length 2, jitter 1) is `4 * 4 + 1 = 17`, outside
`[4, 4 + 5 - 2]`: the loop run on that candidate alone accepts the span `(17, 2)`, and the
whole selection accepts `(1, 2)` and `(17, 2)` and leaves the positions 5 and 6 unmasked. For
every run, each accepted span starts at `4 * c + j` for a candidate `c` and a jitter draw
`j`. -/
theorem C12_start_scaled :
    SpanDrawsOk genW ∧ ShuffleOk id ∧
    initOffs 21 = [0, 4, 8, 12, 16, 20] ∧
    spanStart genW 4 1 = 17 ∧
    ¬ (4 ≤ spanStart genW 4 1 ∧ spanStart genW 4 1 ≤ 4 + 5 - 2) ∧
    (spanLoop genW 102 21 x21 [4] 1
        { masked := List.replicate 21 false, num_masked := 0, accepted := [] }).map
      (fun st => st.accepted) = .ok [(17, 2)] ∧
    (selectSpans genW id 102 21 x21).map (fun st => (st.accepted, st.masked.take 7)) =
      .ok ([(1, 2), (17, 2)], [false, true, true, false, false, false, false]) ∧
    (∀ (g : Gen) (shuffle : List Int → List Int) (sepId len : Int) (x : List Int)
      (st : SpanState), ShuffleOk shuffle → selectSpans g shuffle sepId len x = .ok st →
      ∀ s ∈ st.accepted, ∃ c : Int, 0 ≤ c ∧ c < len ∧ c % 4 = 0 ∧
        ∃ j : Nat, s.1 = 4 * c + g.off_dist j ∧ s.2 = g.len_dist_ j + 1) := by
  refine ⟨spanDrawsOk_genW, shuffleOk_id, by decide, by decide, by decide, by decide,
    by decide, ?_⟩
  intro g shuffle sepId len x st hs h
  exact selectSpans_starts g shuffle sepId len x hs st h

/-- C13: two runs of `ParseOne` on the same thirty tokens with the same results of every
draw from `gen_`, one in which `std::random_shuffle` leaves the candidates in order and one
in which it reverses them, both succeed and emit different examples: the targets are
`[1, 17, 18, 0, ...]` in the first and `[1, 2, 17, 18, 0, ...]` in the second. -/
theorem C13_shuffle_changes_output :
    SpanDrawsOk genD ∧ LibraryDraws genD idsW.length ∧ ShuffleOk id ∧ ShuffleOk List.reverse ∧
    (ParseOne genD id idsW 100 ⟨[], .undefined⟩).map (fun r => (r.1, r.2.target)) =
      .ok (true, Tensor.ofInts ([1, 17, 18] ++ List.replicate 25 0)) ∧
    (ParseOne genD List.reverse idsW 100 ⟨[], .undefined⟩).map (fun r => (r.1, r.2.target)) =
      .ok (true, Tensor.ofInts ([1, 2, 17, 18] ++ List.replicate 24 0)) ∧
    ParseOne genD id idsW 100 ⟨[], .undefined⟩ ≠
      ParseOne genD List.reverse idsW 100 ⟨[], .undefined⟩ := by
  refine ⟨spanDrawsOk_genD, ?_, shuffleOk_id, shuffleOk_reverse, by decide, by decide,
    by decide⟩
  unfold LibraryDraws; decide

theorem readAt_ok_bounds {α : Type} (v : List α) (i : Int) (a : α) (h : readAt v i = .ok a) :
    0 ≤ i ∧ i < v.length := by
  unfold readAt at h
  split at h
  · rename_i h0
    cases hv : v[i.toNat]? with
    | none => rw [hv] at h; simp at h
    | some b =>
      obtain ⟨hlt, _⟩ := List.getElem?_eq_some.mp hv
      exact ⟨h0, by omega⟩
  · simp at h

theorem writeAt_ok_bounds {α : Type} (v w : List α) (i : Int) (a : α)
    (h : writeAt v i a = .ok w) : 0 ≤ i ∧ i < v.length := by
  unfold writeAt at h
  split at h
  · assumption
  · simp at h

theorem thirdthLen_ge (total off : Int) (h : 5 ≤ thirdthLen total off) :
    15 ≤ clipEnd total off - off := by
  unfold thirdthLen at h
  by_cases hc : 0 ≤ clipEnd total off - off
  · rw [tdiv_three _ hc] at h; omega
  · have : (clipEnd total off - off).tdiv 3 ≤ 0 := by
      rw [← Int.neg_neg (clipEnd total off - off), Int.neg_tdiv, tdiv_three _ (by omega)]; omega
    omega

/-- C14: index safety. For `thirdthLen >= 5`, draws with `0 <= off <= mid < end` and span
draws in their supports: the usable range has `end - off <= kMaxLen - 1 = 198` tokens inside
`ids`, the emitted length is `k <= kMaxLen = 199`, the vectors written by `ParseOne` have
`kMaxLen + 1 = 200` entries, `masked` has `k` entries and every accepted span lies in
`[1, k)`, and `ParseOne` returns without the out-of-bounds fault, which every vector access
outside `[0, size)` raises. -/
theorem C14_index_safety (g : Gen) (shuffle : List Int → List Int) (ids : List Int)
    (totalVocabSize : Int) (example_ : LlbExample)
    (h5 : 5 ≤ thirdthLen ids.length g.ranoff_p) (hs : SplitOk g ids.length)
    (hg : SpanDrawsOk g) (hsh : ShuffleOk shuffle) :
    clipEnd ids.length g.ranoff_p - g.ranoff_p ≤ kMaxLen - 1 ∧
    0 ≤ g.ranoff_p ∧ clipEnd ids.length g.ranoff_p ≤ ids.length ∧
    emittedLen g ids ≤ kMaxLen ∧
    (∃ ex st out,
      assemble g ids totalVocabSize = .ok (some (ex, emittedLen g ids)) ∧
      (ex.x.length : Int) = kMaxLen + 1 ∧ (ex.types.length : Int) = kMaxLen + 1 ∧
      selectSpans g shuffle (totalVocabSize + 2) (emittedLen g ids) ex.x = .ok st ∧
      (st.masked.length : Int) = emittedLen g ids ∧
      (∀ s ∈ st.accepted, 1 ≤ s.1 ∧ s.1 + s.2 ≤ emittedLen g ids) ∧
      ParseOne g shuffle ids totalVocabSize example_ = .ok (true, out)) ∧
    (∀ (v : List Int) (i a : Int), readAt v i = .ok a → 0 ≤ i ∧ i < v.length) ∧
    (∀ (v : List Bool) (i : Int) (a : Bool), readAt v i = .ok a → 0 ≤ i ∧ i < v.length) ∧
    (∀ (v w : List Int) (i a : Int), writeAt v i a = .ok w → 0 ≤ i ∧ i < v.length) ∧
    (∀ (v w : List Bool) (i : Int) (a : Bool), writeAt v i a = .ok w →
      0 ≤ i ∧ i < v.length) := by
  obtain ⟨st, ex1, e1, e2, _, _, _, _, e7⟩ :=
    ParseOne_spec g shuffle ids totalVocabSize example_ h5 hs hg hsh
  have hsub := clipEnd_sub_le ids.length g.ranoff_p
  have hlen := length_assembled_x g ids totalVocabSize hs
  have htl : (assembled g ids totalVocabSize).types.length = 200 := by
    have hx := hlen
    unfold assembled at hx ⊢
    simp only [List.length_append, List.length_replicate, List.length_singleton] at hx ⊢
    omega
  refine ⟨by unfold kMaxLen; omega, hs.1, clipEnd_le _ _, by unfold emittedLen kMaxLen; omega,
    ⟨assembled g ids totalVocabSize, st, _, assemble_spec g ids totalVocabSize h5 hs, ?_, ?_,
      e1, e2.len_eq, ?_, e7⟩,
    fun v i a => readAt_ok_bounds v i a, fun v i a => readAt_ok_bounds v i a,
    fun v w i a => writeAt_ok_bounds v w i a, fun v w i a => writeAt_ok_bounds v w i a⟩
  · rw [hlen]; rfl
  · rw [htl]; rfl
  · intro s hsm
    have := e2.shape s hsm
    exact ⟨this.1, this.2.2.2⟩

/-- Witness of C14 on thirty tokens. -/
theorem C14_index_safety_witness :
    5 ≤ thirdthLen idsW.length genW.ranoff_p ∧ SplitOk genW idsW.length ∧
    SpanDrawsOk genW ∧ ShuffleOk id ∧
    emittedLen genW idsW ≤ kMaxLen ∧
    ∃ out, ParseOne genW id idsW 100 ⟨[], .undefined⟩ = .ok (true, out) :=
  ⟨by decide, splitOk_genW, spanDrawsOk_genW, shuffleOk_id, by
    obtain ⟨_, _, _, h4, ⟨_, _, out, _, _, _, _, _, _, h⟩, _⟩ :=
      C14_index_safety genW id idsW 100 ⟨[], .undefined⟩ (by decide) splitOk_genW
        spanDrawsOk_genW shuffleOk_id
    exact ⟨h4, out, h⟩⟩

theorem mask_seq_true (g : Gen) (shuffle : List Int → List Int)
    (maskId sepId totalVocabSize len : Int) (ex : Ex) (r : Bool × Ex)
    (h : _mask_seq g shuffle maskId sepId totalVocabSize len ex = .ok r) : r.1 = true := by
  unfold _mask_seq at h
  cases h1 : selectSpans g shuffle sepId len ex.x with
  | error e => rw [h1] at h; simp [bind, Except.bind] at h
  | ok st =>
    rw [h1] at h
    simp only [bind, Except.bind] at h
    cases h2 : corrupt g maskId len st.masked ex with
    | error e => rw [h2] at h; simp at h
    | ok ex1 =>
      rw [h2] at h
      simp only at h
      split at h
      · simp only [Except.ok.injEq] at h
        rw [← h]
      · simp at h

/-- C15: `_mask_seq` never returns `false`; entered as `ParseOne` enters it, with draws in
their supports, it returns `true`, and when no span is accepted the targets and positions
are 28 zeros. So `ParseOne` returns `true` exactly when `thirdthLen >= 5`, and `false` with
the example unchanged otherwise: the "mask example error" branch is never taken. -/
theorem C15_always_true (g : Gen) (shuffle : List Int → List Int)
    (maskId sepId totalVocabSize len : Int) (ex : Ex) (ids : List Int)
    (example_ : LlbExample) (hg : SpanDrawsOk g) (hs : ShuffleOk shuffle) :
    (∀ r, _mask_seq g shuffle maskId sepId totalVocabSize len ex = .ok r → r.1 = true) ∧
    (0 ≤ len → len ≤ ex.x.length → ex.target = [] → ex.indexies = [] →
      ∃ st ex2, selectSpans g shuffle sepId len ex.x = .ok st ∧
        _mask_seq g shuffle maskId sepId totalVocabSize len ex = .ok (true, ex2) ∧
        (st.accepted = [] →
          ex2.target = List.replicate 28 0 ∧ ex2.indexies = List.replicate 28 0)) ∧
    ((5 ≤ thirdthLen ids.length g.ranoff_p → SplitOk g ids.length) →
      ∃ b out, ParseOne g shuffle ids totalVocabSize example_ = .ok (b, out) ∧
        (b = true ↔ 5 ≤ thirdthLen ids.length g.ranoff_p) ∧
        (b = false → out = example_)) := by
  refine ⟨fun r h => mask_seq_true g shuffle maskId sepId totalVocabSize len ex r h, ?_, ?_⟩
  · intro h0 hx ht hi
    obtain ⟨st, ex1, e1, e2, _, _, _, e6, e7, _, _, e10, e11⟩ :=
      mask_seq_spec g shuffle maskId sepId totalVocabSize len ex hg hs h0 hx ht hi
    refine ⟨st, _, e1, e11, ?_⟩
    intro hacc
    have hz : st.masked.count true = 0 := by
      have h1 := e2.count_eq
      have h2 := e2.sum_eq
      rw [hacc] at h2
      simp only [List.map_nil, List.sum_nil] at h2
      omega
    have hnil : maskedIn st.masked 0 len.toNat = [] :=
      List.length_eq_zero.mp (by rw [e10, hz])
    simp only [e6, e7, hnil, hz, List.map_nil, List.nil_append]
    exact ⟨trivial, trivial⟩
  · intro hsp
    by_cases h5 : 5 ≤ thirdthLen ids.length g.ranoff_p
    · obtain ⟨_, _, _, _, _, _, _, _, e7⟩ :=
        ParseOne_spec g shuffle ids totalVocabSize example_ h5 (hsp h5) hg hs
      exact ⟨true, _, e7, by simp [h5], by simp⟩
    · refine ⟨false, example_, ?_, by simp [h5], fun _ => rfl⟩
      have hw : writeAt (Ex.new (kMaxLen + 1).toNat).x 0 totalVocabSize =
          .ok ((Ex.new (kMaxLen + 1).toNat).x.set 0 totalVocabSize) :=
        writeAt_eq _ _ _ (le_refl 0) (by simp only [Ex.new, List.length_replicate]; decide)
      unfold ParseOne assemble
      dsimp only
      rw [hw]
      simp only [bind, Except.bind]
      rw [if_pos (by omega)]

/-- Witness of C15: a run on one token in which no span is accepted, and `ParseOne` on
thirty tokens. -/
theorem C15_always_true_witness :
    SpanDrawsOk genW ∧ ShuffleOk id ∧ (0 : Int) ≤ 1 ∧ (1 : Int) ≤ exW.x.length ∧
    exW.target = [] ∧ exW.indexies = [] ∧
    (5 ≤ thirdthLen idsW.length genW.ranoff_p → SplitOk genW idsW.length) ∧
    (selectSpans genW id 102 1 exW.x).map (fun st => st.accepted) = .ok [] ∧
    (∃ ex2, _mask_seq genW id 101 102 100 1 exW = .ok (true, ex2) ∧
      ex2.target = List.replicate 28 0 ∧ ex2.indexies = List.replicate 28 0) ∧
    ∃ out, ParseOne genW id idsW 100 ⟨[], .undefined⟩ = .ok (true, out) :=
  ⟨spanDrawsOk_genW, shuffleOk_id, by decide, by decide, rfl, rfl, fun _ => splitOk_genW,
    by decide, by
    obtain ⟨st, ex2, h1, h2, h3⟩ :=
      (C15_always_true genW id 101 102 100 1 exW idsW ⟨[], .undefined⟩ spanDrawsOk_genW
        shuffleOk_id).2.1 (by decide) (by decide) rfl rfl
    have hacc : st.accepted = [] := by
      have : (selectSpans genW id 102 1 exW.x).map (fun st => st.accepted) = .ok [] := by
        decide
      rw [h1] at this
      exact Except.ok.inj this
    exact ⟨ex2, h2, h3 hacc⟩, by
    obtain ⟨b, out, h1, h2, _⟩ :=
      (C15_always_true genW id 101 102 100 1 exW idsW ⟨[], .undefined⟩ spanDrawsOk_genW
        shuffleOk_id).2.2 (fun _ => splitOk_genW)
    have hb : b = true := h2.mpr (by decide)
    subst hb
    exact ⟨out, h1⟩⟩

theorem assembled_range (g : Gen) (ids : List Int) (totalVocabSize : Int)
    (hv : 0 ≤ totalVocabSize) (hids : ∀ t ∈ ids, 0 ≤ t ∧ t < totalVocabSize) :
    ∀ (q : Nat) (t : Int), (assembled g ids totalVocabSize).x[q]? = some t →
      (0 ≤ t ∧ t ≤ totalVocabSize + 2) ∧
      (1 ≤ q → t ≠ totalVocabSize + 2 → 0 ≤ t ∧ (t < totalVocabSize ∨ t = 0)) := by
  obtain ⟨_, _, l3⟩ := getElem?_layout totalVocabSize (totalVocabSize + 2) (firstSeg g ids)
    (secondSeg g ids) (List.replicate (200 - (emittedLen g ids).toNat) 0)
  obtain ⟨m1, m2⟩ := mem_segs g ids
  intro q t h
  rcases l3 q t h with ⟨h1, h2⟩ | ⟨_, h2⟩ | ⟨_, _, h3⟩
  · exact ⟨by omega, fun hq _ => by omega⟩
  · exact ⟨by omega, fun _ hne => absurd h2 hne⟩
  · have hr : 0 ≤ t ∧ (t < totalVocabSize ∨ t = 0) := by
      rcases h3 with h | h | h
      · have := hids t (m1 t h); exact ⟨this.1, Or.inl this.2⟩
      · have := hids t (m2 t h); exact ⟨this.1, Or.inl this.2⟩
      · have := (List.mem_replicate.mp h).2
        exact ⟨by omega, Or.inr this⟩
    exact ⟨⟨hr.1, by omega⟩, fun _ _ => hr⟩

/-- C16: for `thirdthLen >= 5`, draws in their supports (the random ids in
`[1, totalVocabSize - 1]`, so `totalVocabSize >= 2`) and encoder ids in
`[0, totalVocabSize)`, `ParseOne` succeeds and every entry of the 200 final tokens lies in
`[0, totalVocabSize + 2]`. -/
theorem C16_token_range (g : Gen) (shuffle : List Int → List Int) (ids : List Int)
    (totalVocabSize : Int) (example_ : LlbExample)
    (h5 : 5 ≤ thirdthLen ids.length g.ranoff_p) (hs : SplitOk g ids.length)
    (hg : SpanDrawsOk g) (hsh : ShuffleOk shuffle) (hid : IdDrawsOk g totalVocabSize)
    (hids : ∀ t ∈ ids, 0 ≤ t ∧ t < totalVocabSize) :
    ∃ toks idx tgt types,
      ParseOne g shuffle ids totalVocabSize example_ =
        .ok (true,
          { features := example_.features ++
              [Tensor.ofInts toks, Tensor.ofInts idx, Tensor.ofInts types,
               Tensor.ofInt (orderLabel g)],
            target := Tensor.ofInts tgt }) ∧
      2 ≤ totalVocabSize ∧
      ∀ t ∈ toks, 0 ≤ t ∧ t ≤ totalVocabSize + 2 := by
  obtain ⟨st, ex1, _, e2, _, _, _, e6, e7⟩ :=
    ParseOne_spec g shuffle ids totalVocabSize example_ h5 hs hg hsh
  have hv : 2 ≤ totalVocabSize := by have := hid 0; omega
  have hrange := assembled_range g ids totalVocabSize (by omega) hids
  refine ⟨_, _, _, _, e7, hv, ?_⟩
  intro t ht
  obtain ⟨q, hq⟩ := List.mem_iff_getElem?.mp ht
  rw [e6 q] at hq
  by_cases hm : st.masked[q]? = some true
  · rw [if_pos hm] at hq
    obtain ⟨_, t0, ht0, _⟩ := e2.pos q hm
    rw [ht0] at hq
    simp only [Option.map_some', Option.some.injEq] at hq
    have hr := hid q
    have h0 := (hrange q t0 ht0).1
    rcases corruptTok_cases g (totalVocabSize + 1) t0 q with h | h | h <;> rw [h] at hq <;>
      omega
  · rw [if_neg hm] at hq
    exact (hrange q t hq).1

/-- Witness of C16 on thirty tokens. -/
theorem C16_token_range_witness :
    5 ≤ thirdthLen idsW.length genW.ranoff_p ∧ SplitOk genW idsW.length ∧
    SpanDrawsOk genW ∧ ShuffleOk id ∧ IdDrawsOk genW 100 ∧
    (∀ t ∈ idsW, 0 ≤ t ∧ t < 100) ∧
    ∃ toks idx tgt types,
      ParseOne genW id idsW 100 ⟨[], .undefined⟩ =
        .ok (true,
          { features := [Tensor.ofInts toks, Tensor.ofInts idx, Tensor.ofInts types,
               Tensor.ofInt (orderLabel genW)],
            target := Tensor.ofInts tgt }) ∧
      ∀ t ∈ toks, 0 ≤ t ∧ t ≤ 100 + 2 :=
  ⟨by decide, splitOk_genW, spanDrawsOk_genW, shuffleOk_id, idDrawsOk_genW, mem_idsW, by
    obtain ⟨toks, idx, tgt, types, h1, _, h3⟩ :=
      C16_token_range genW id idsW 100 ⟨[], .undefined⟩ (by decide) splitOk_genW
        spanDrawsOk_genW shuffleOk_id idDrawsOk_genW mem_idsW
    exact ⟨toks, idx, tgt, types, h1, h3⟩⟩

/-- C17: for `thirdthLen >= 5`, draws in their supports and encoder ids in
`[0, totalVocabSize)`, `ParseOne` succeeds and every entry of the 28 target ids lies in
`[0, totalVocabSize - 1]`: it is never CLS, MASK or SEP. -/
theorem C17_target_range (g : Gen) (shuffle : List Int → List Int) (ids : List Int)
    (totalVocabSize : Int) (example_ : LlbExample)
    (h5 : 5 ≤ thirdthLen ids.length g.ranoff_p) (hs : SplitOk g ids.length)
    (hg : SpanDrawsOk g) (hsh : ShuffleOk shuffle)
    (hids : ∀ t ∈ ids, 0 ≤ t ∧ t < totalVocabSize) :
    ∃ toks idx tgt types,
      ParseOne g shuffle ids totalVocabSize example_ =
        .ok (true,
          { features := example_.features ++
              [Tensor.ofInts toks, Tensor.ofInts idx, Tensor.ofInts types,
               Tensor.ofInt (orderLabel g)],
            target := Tensor.ofInts tgt }) ∧
      (tgt.length : Int) = kMaxLabel ∧
      ∀ t ∈ tgt, (0 ≤ t ∧ t ≤ totalVocabSize - 1) ∧
        t ≠ totalVocabSize ∧ t ≠ totalVocabSize + 1 ∧ t ≠ totalVocabSize + 2 := by
  obtain ⟨st, ex1, _, e2, _, _, e5, _, e7⟩ :=
    ParseOne_spec g shuffle ids totalVocabSize example_ h5 hs hg hsh
  have hv : 1 ≤ totalVocabSize := by
    have h15 := thirdthLen_ge _ _ h5
    have hle := clipEnd_le ids.length g.ranoff_p
    have h0 := hs.1
    have hl : (15 : Int) ≤ ids.length := by omega
    cases ids with
    | nil => simp only [List.length_nil, Nat.cast_zero] at hl; omega
    | cons a rest => have := hids a (List.mem_cons_self _ _); omega
  have hrange := assembled_range g ids totalVocabSize (by omega) hids
  have hlen : st.masked.length = (emittedLen g ids).toNat := by
    have := e2.len_eq; omega
  have hcnt : (maskedIn st.masked 0 (emittedLen g ids).toNat).length =
      st.masked.count true := by
    rw [← hlen]; exact length_maskedIn st.masked
  have hle : st.masked.count true ≤ 28 := by
    have h1 := e2.count_eq
    have h2 := e2.le_max
    unfold kMaxLabel at h2
    omega
  refine ⟨_, _, _, _, e7, ?_, ?_⟩
  · simp only [List.length_append, List.length_replicate, e5, List.length_map, hcnt]
    unfold kMaxLabel; omega
  · intro t ht
    have key : 0 ≤ t ∧ (t < totalVocabSize ∨ t = 0) := by
      rcases List.mem_append.mp ht with h | h
      · rw [e5, List.mem_map] at h
        obtain ⟨q, hq, hqt⟩ := h
        have hm := ((mem_maskedIn st.masked 0 _ q).mp hq).2.2
        obtain ⟨hq1, t0, ht0, hne⟩ := e2.pos q hm
        rw [ht0] at hqt
        simp only [Option.getD_some] at hqt
        rw [← hqt]
        exact (hrange q t0 ht0).2 hq1 hne
      · have := (List.mem_replicate.mp h).2
        exact ⟨by omega, Or.inr this⟩
    omega

/-- Witness of C17 on thirty tokens. -/
theorem C17_target_range_witness :
    5 ≤ thirdthLen idsW.length genW.ranoff_p ∧ SplitOk genW idsW.length ∧
    SpanDrawsOk genW ∧ ShuffleOk id ∧ (∀ t ∈ idsW, 0 ≤ t ∧ t < 100) ∧
    ∃ toks idx tgt types,
      ParseOne genW id idsW 100 ⟨[], .undefined⟩ =
        .ok (true,
          { features := [Tensor.ofInts toks, Tensor.ofInts idx, Tensor.ofInts types,
               Tensor.ofInt (orderLabel genW)],
            target := Tensor.ofInts tgt }) ∧
      (tgt.length : Int) = kMaxLabel :=
  ⟨by decide, splitOk_genW, spanDrawsOk_genW, shuffleOk_id, mem_idsW, by
    obtain ⟨toks, idx, tgt, types, h1, h2, _⟩ :=
      C17_target_range genW id idsW 100 ⟨[], .undefined⟩ (by decide) splitOk_genW
        spanDrawsOk_genW shuffleOk_id mem_idsW
    exact ⟨toks, idx, tgt, types, h1, h2⟩⟩

/-- C18: frame. Whatever `_mask_seq` returns, the tokens differ from the ones it was given
only at flagged positions (every other index, in particular every index `>= len`, holds the
same token), and the segment types, the order label and the length of the token sequence
are unchanged; entered with an empty target list it does return. -/
theorem C18_frame (g : Gen) (shuffle : List Int → List Int)
    (maskId sepId totalVocabSize len : Int) (ex : Ex)
    (hg : SpanDrawsOk g) (hs : ShuffleOk shuffle) (h0 : 0 ≤ len) (hx : len ≤ ex.x.length) :
    ∃ st, selectSpans g shuffle sepId len ex.x = .ok st ∧
      (∀ (b : Bool) (ex2 : Ex),
        _mask_seq g shuffle maskId sepId totalVocabSize len ex = .ok (b, ex2) →
        ex2.types = ex.types ∧ ex2.ordered = ex.ordered ∧ ex2.x.length = ex.x.length ∧
        (∀ q : Nat, st.masked[q]? ≠ some true → ex2.x[q]? = ex.x[q]?) ∧
        (∀ q : Nat, len ≤ (q : Int) → ex2.x[q]? = ex.x[q]?)) ∧
      (ex.target = [] →
        ∃ ex2, _mask_seq g shuffle maskId sepId totalVocabSize len ex = .ok (true, ex2)) := by
  obtain ⟨st, hst, hinv⟩ := selectSpans_inv g shuffle sepId len ex.x hg hs h0 hx
  have hlen : st.masked.length = len.toNat := by have := hinv.len_eq; omega
  obtain ⟨ex1, e1, e2, e3, _, e5, e6, e7⟩ := corruptLoop_spec g maskId st.masked len.toNat 0 ex
    (by omega) (by omega)
  have hc : corrupt g maskId len st.masked ex = .ok ex1 := e1
  have hun : ∀ q : Nat, st.masked[q]? ≠ some true → ex1.x[q]? = ex.x[q]? := by
    intro q hq
    rw [e7 q, if_neg (fun h => hq ((mem_maskedIn st.masked 0 _ q).mp h).2.2)]
  refine ⟨st, hst, ?_, ?_⟩
  · intro b ex2 h
    unfold _mask_seq at h
    rw [hst] at h
    simp only [bind, Except.bind] at h
    rw [hc] at h
    simp only at h
    split at h
    · simp only [Except.ok.injEq, Prod.mk.injEq] at h
      obtain ⟨_, h2⟩ := h
      rw [padLoop_spec] at h2
      subst h2
      refine ⟨e2, e3, e6, hun, ?_⟩
      intro q hq
      apply hun
      rw [List.getElem?_eq_none (by omega)]
      simp
    · simp at h
  · intro ht
    have hcnt : (maskedIn st.masked 0 len.toNat).length = st.masked.count true := by
      rw [← hlen]; exact length_maskedIn st.masked
    have hle : (ex1.target.length : Int) ≤ kMaxLabel := by
      rw [e5, ht, List.nil_append, List.length_map, hcnt]
      have h1 := hinv.count_eq
      have h2 := hinv.le_max
      omega
    unfold _mask_seq
    rw [hst]
    simp only [bind, Except.bind]
    rw [hc]
    simp only
    rw [if_pos hle]
    exact ⟨_, rfl⟩

/-- Witness of C18 on a sequence of eight tokens. -/
theorem C18_frame_witness :
    SpanDrawsOk genW ∧ ShuffleOk id ∧ (0 : Int) ≤ 8 ∧ (8 : Int) ≤ exW.x.length ∧
    ∃ ex2, _mask_seq genW id 101 102 100 8 exW = .ok (true, ex2) ∧
      ex2.types = exW.types ∧ ex2.ordered = exW.ordered ∧ ex2.x.length = exW.x.length :=
  ⟨spanDrawsOk_genW, shuffleOk_id, by decide, by decide, by
    obtain ⟨_, _, h2, h3⟩ := C18_frame genW id 101 102 100 8 exW
      spanDrawsOk_genW shuffleOk_id (by decide) (by decide)
    obtain ⟨ex2, h4⟩ := h3 rfl
    obtain ⟨f1, f2, f3, _⟩ := h2 true ex2 h4
    exact ⟨ex2, h4, f1, f2, f3⟩⟩

end radish
